import Mathlib

/-!
Verification of the naucse.python.cz delegation/cache/freezing core.

This file gives a shallow embedding, in Lean 4, of the functions of the
repository that the specification talks about:

* `naucse/routes_util.py` / `naucse/utils/routes.py`: `list_months`,
  `page_content_cache_key`, `does_course_return_info`,
  `raise_errors_from_forks`, `AllowedElementsParser`;
* `naucse/freezer.py`: `ExtractLinksParser.should_add`,
  `ExtractLinksParser.handle_starttag` / `handle_startendtag`,
  `AllLinksLogger.iter_calls` and the `_build_one` crawl step;
* `naucse/routes.py`: the cache interaction of `render_page` and
  `course_link_page`;
* `naucse/utils/forks.py`: the fork-side `render` dispatch and the
  content-offer logic of its `course_page` branch.

Stateful Python code is modelled by explicit state passing, exceptions by
`Except`, and the dogpile cache region by an association list.
-/

namespace Naucse

/-! ## Python dates (`datetime.date`) -/

/-- A Python `datetime.date`.  The `date` constructor enforces
`1 <= month <= 12`, which we record in the structure. -/
structure PyDate where
  year : Int
  month : Int
  day : Int
  month_ge : 1 ≤ month
  month_le : month ≤ 12

/-! ## `list_months` (naucse/routes_util.py lines 39-53,
naucse/utils/routes.py lines 45-59)

```python
def list_months(start_date, end_date):
    months = []
    year = start_date.year
    month = start_date.month
    while (year, month) <= (end_date.year, end_date.month):
        months.append((year, month))
        month += 1
        if month > 12:
            month = 1
            year += 1
    return months
```

The `while` loop is translated as well-founded recursion on the distance
between the running month index `12*year + month` and the end index.
The invariant `1 ≤ month ≤ 12`, guaranteed by `datetime.date` for the
initial value and preserved by the loop body, is carried as hypotheses. -/

/-- One Python tuple comparison `(year, month) <= (ey, em)`. -/
def monthPairLe (year month ey em : Int) : Prop :=
  year < ey ∨ (year = ey ∧ month ≤ em)

instance (year month ey em : Int) : Decidable (monthPairLe year month ey em) := by
  unfold monthPairLe
  infer_instance

/-- The `while` loop of `list_months`.  The bounds on the running month
and on the end month both come from `datetime.date`. -/
def list_months_loop (ey em : Int) (he1 : 1 ≤ em) (he2 : em ≤ 12)
    (year month : Int)
    (h1 : 1 ≤ month) (h2 : month ≤ 12) : List (Int × Int) :=
  if hg : monthPairLe year month ey em then
    if hm : month + 1 > 12 then
      (year, month) :: list_months_loop ey em he1 he2 (year + 1) 1 (by omega) (by omega)
    else
      (year, month) :: list_months_loop ey em he1 he2 year (month + 1) (by omega) (by omega)
  else
    []
termination_by (12 * ey + em + 1 - (12 * year + month)).toNat
decreasing_by
  · rcases hg with h | ⟨h, h'⟩ <;> omega
  · rcases hg with h | ⟨h, h'⟩ <;> omega

/-- `list_months(start_date, end_date)` from `naucse/routes_util.py`
(identical in `naucse/utils/routes.py`). -/
def list_months (start_date end_date : PyDate) : List (Int × Int) :=
  list_months_loop end_date.year end_date.month end_date.month_ge end_date.month_le
    start_date.year start_date.month
    start_date.month_ge start_date.month_le

/-- Closed form used to state correctness of `list_months`: month number
`i` (0-based linear index `12*year + (month-1)`) decoded back into a
`(year, month)` pair. -/
def decodeMonth (i : Int) : Int × Int :=
  (i / 12, i % 12 + 1)

/-- The consecutive months from linear index `a` to linear index `b`,
both included. -/
def monthRange (a b : Int) : List (Int × Int) :=
  (List.range (b + 1 - a).toNat).map (fun (k : Nat) => decodeMonth (a + (k : Int)))

/-- Linear index of a `(year, month)` pair. -/
def monthIndex (year month : Int) : Int := 12 * year + (month - 1)

/-! ## Python exceptions

One shared type for every Python exception that the embedded code can
raise or catch. -/

inductive PyExn where
  | attributeError (msg : String)
  | typeError (msg : String)
  | valueError (msg : String)
  | pullError
  | buildError
  | requirementsMismatch
  | disallowedElement (msg : String)
  | disallowedStyle (msg : String)
  | lookupError
  deriving DecidableEq, Repr

/-! ## `urllib.parse.urlparse().netloc`

Model of the scheme/netloc splitting of `urllib.parse.urlsplit` (CPython
3.6), which is all `should_add` consults:

```python
i = url.find(':')
if i > 0:
    for c in url[:i]:
        if c not in scheme_chars:
            break
    else:
        rest = url[i+1:]
        if not rest or any(c not in '0123456789' for c in rest):
            scheme, url = url[:i].lower(), rest
if url[:2] == '//':
    netloc, url = _splitnetloc(url, 2)   # up to the next '/', '?' or '#'
```
-/

/-- `scheme_chars` of `urllib.parse`. -/
def isSchemeChar (c : Char) : Bool :=
  c.isAlpha || c.isDigit || c = '+' || c = '-' || c = '.'

/-- Split a character list at the first `':'`; `none` when there is no
colon (`url.find(':') == -1`). -/
def splitAtColon : List Char → Option (List Char × List Char)
  | [] => none
  | c :: cs =>
    if c = ':' then some ([], cs)
    else
      match splitAtColon cs with
      | none => none
      | some (before, after) => some (c :: before, after)

/-- Drop a leading `scheme:` as `urlsplit` does. -/
def stripScheme (url : List Char) : List Char :=
  match splitAtColon url with
  | none => url
  | some (before, after) =>
    if before ≠ [] ∧ before.all isSchemeChar ∧
        (after = [] ∨ ¬ after.all Char.isDigit) then
      after
    else
      url

/-- `_splitnetloc`: everything up to the next `'/'`, `'?'` or `'#'`. -/
def takeNetloc : List Char → List Char
  | [] => []
  | c :: cs => if c = '/' ∨ c = '?' ∨ c = '#' then [] else c :: takeNetloc cs

/-- The `netloc` component of `urlparse(url)`. -/
def urlparse_netloc (url : String) : String :=
  match stripScheme url.data with
  | '/' :: '/' :: rest => ⟨takeNetloc rest⟩
  | _ => ""

/-! ## `ExtractLinksParser` (naucse/freezer.py lines 13-31)

```python
def should_add(self, url):
    return bool(urlparse(url).netloc) and url.starstwith("/")

def handle_starttag(self, tag, attrs):
    if tag == "a":
        attrs = dict(attrs)
        if attrs.get("href") and self.should_add(attrs["href"]):
            self.logger.links.append(attrs["href"])

def handle_startendtag(self, tag, attrs):
    if tag == "img":
        attrs = dict(attrs)
        if attrs.get("src") and self.should_add(attrs["src"]):
            self.logger.links.append(attrs["src"])
```
-/

/-- `should_add`.  `bool(urlparse(url).netloc)` is `False` for an empty
netloc, short-circuiting the `and` to `False`; otherwise Python looks up
the attribute `starstwith` (a misspelling of `startswith`), which `str`
does not have, so the call raises `AttributeError`. -/
def should_add (url : String) : Except PyExn Bool :=
  if (urlparse_netloc url).isEmpty then
    .ok false
  else
    .error (.attributeError ("str object has no attribute starstwith"))

/-- Python `dict(attrs).get(key)`: the last binding of `key` wins;
`none` when `key` is absent. -/
def attrsGet (attrs : List (String × Option String)) (key : String) :
    Option (Option String) :=
  (attrs.reverse.find? (fun p => p.1 == key)).map Prod.snd

/-- `ExtractLinksParser.handle_starttag`, acting on the link queue
`links` (the `self.logger.links` deque). -/
def handle_starttag (links : List String) (tag : String)
    (attrs : List (String × Option String)) : Except PyExn (List String) :=
  if tag = "a" then
    match attrsGet attrs "href" with
    | some (some href) =>
      if href ≠ "" then
        match should_add href with
        | .error e => .error e
        | .ok true => .ok (links ++ [href])
        | .ok false => .ok links
      else .ok links
    | _ => .ok links
  else .ok links

/-- `ExtractLinksParser.handle_startendtag`, acting on the link queue. -/
def handle_startendtag (links : List String) (tag : String)
    (attrs : List (String × Option String)) : Except PyExn (List String) :=
  if tag = "img" then
    match attrsGet attrs "src" with
    | some (some src) =>
      if src ≠ "" then
        match should_add src with
        | .error e => .error e
        | .ok true => .ok (links ++ [src])
        | .ok false => .ok links
      else .ok links
    | _ => .ok links
  else .ok links

/-! ## `AllowedElementsParser` (naucse/utils/routes.py lines 110-198)

The class receives parser events from `html.parser.HTMLParser`.  We
model a fed fragment as the list of events the stdlib parser emits for
it, together with the stdlib's `lasttag` state: `parse_starttag` sets
`self.lasttag` for both start and start-end tags, end tags leave it
unchanged, and `HTMLParser.reset` initializes it to `"???"`.

`cssutils` is an external collaborator; a parsed stylesheet is modelled
as the list of its rules, each rule being the list of the
`selectorText`s of its `selectorList`, and a parse failure as
`Except.error ()` (the `SyntaxErr` that `validate_css` catches).  The
embedding is parameterized by the parse function `cssParse`. -/

def DisallowedStyle_BASE : String :=
  "Style element or page css are only allowed when they modify .dataframe elements."

def DisallowedStyle_COULD_NOT_PARSE : String :=
  DisallowedStyle_BASE ++ (" Ccould not parse the styles and verify.")

def DisallowedStyle_OUT_OF_SCOPE : String :=
  DisallowedStyle_BASE ++ (" Rendered page contains a style that modifies something else.")

/-- The `allowed_elements` set. -/
def allowed_elements : List String :=
  ["a", "abbr", "audio", "img", "source",
   "big", "blockquote", "code", "font", "i", "tt", "kbd", "u", "var",
   "small", "em", "strong", "sub",
   "br", "div", "hr", "p", "pre", "span",
   "dd", "dl", "dt", "li", "ul", "ol",
   "h1", "h2", "h3", "h4", "h5", "h6",
   "table", "tbody", "td", "th", "thead", "tr",
   "svg", "circle", "path",
   "style"]

/-- Python `s.startswith(pre)`. -/
def py_startswith (s pre : String) : Bool :=
  pre.data.isPrefixOf s.data

/-- `AllowedElementsParser.allow_selector`. -/
def allow_selector (selector : String) : Bool :=
  py_startswith selector (".dataframe ")

/-- `AllowedElementsParser.validate_css`. -/
def validate_css (cssParse : String → Except Unit (List (List String)))
    (data : String) : Except PyExn Unit :=
  match cssParse data with
  | .error _ => .error (.disallowedStyle DisallowedStyle_COULD_NOT_PARSE)
  | .ok rules =>
    if rules.length = 0 then .ok ()
    else if rules.all (fun sels => sels.all allow_selector) then .ok ()
    else .error (.disallowedStyle DisallowedStyle_OUT_OF_SCOPE)

/-- Events emitted by `html.parser.HTMLParser` (attributes are ignored
by every handler of `AllowedElementsParser`). -/
inductive HtmlEvent where
  | starttag (tag : String)
  | startendtag (tag : String)
  | endtag (tag : String)
  | data (s : String)
  deriving DecidableEq, Repr

/-- One event processed by `AllowedElementsParser`, threading the
stdlib `lasttag` state.  Returns the new `lasttag`. -/
def feedEvent (cssParse : String → Except Unit (List (List String)))
    (lasttag : String) : HtmlEvent → Except PyExn String
  | .starttag tag =>
    if allowed_elements.contains tag then .ok tag
    else .error (.disallowedElement ("Element " ++ tag ++ (" is not allowed.")))
  | .startendtag tag =>
    if allowed_elements.contains tag then .ok tag
    else .error (.disallowedElement ("Element " ++ tag ++ (" is not allowed.")))
  | .endtag _ => .ok lasttag
  | .data s =>
    if lasttag = "style" then
      match validate_css cssParse s with
      | .error e => .error e
      | .ok _ => .ok lasttag
    else .ok lasttag

/-- A list of events processed in order, stopping at the first raised
exception. -/
def feedEvents (cssParse : String → Except Unit (List (List String)))
    (lasttag : String) : List HtmlEvent → Except PyExn String
  | [] => .ok lasttag
  | e :: es =>
    match feedEvent cssParse lasttag e with
    | .error err => .error err
    | .ok lt => feedEvents cssParse lt es

/-- A parser run from a given `lasttag` state, discarding the final
state: either the first raised exception or success. -/
def runFeed (cssParse : String → Except Unit (List (List String)))
    (lasttag : String) (events : List HtmlEvent) : Except PyExn Unit :=
  match feedEvents cssParse lasttag events with
  | .error e => .error e
  | .ok _ => .ok ()

/-- `AllowedElementsParser.reset_and_feed` on a fragment given by its
event list (`reset` sets `lasttag` back to `"???"`). -/
def reset_and_feed (cssParse : String → Except Unit (List (List String)))
    (events : List HtmlEvent) : Except PyExn Unit :=
  runFeed cssParse ("???") events

/-- Does the fragment contain a start or start-end tag outside the
allow-set? -/
def containsDisallowedTag (events : List HtmlEvent) : Bool :=
  events.any (fun e =>
    match e with
    | .starttag t => !(allowed_elements.contains t)
    | .startendtag t => !(allowed_elements.contains t)
    | _ => false)

/-- Did a run of the parser raise `DisallowedStyle`? -/
def isDisallowedStyleError : Except PyExn Unit → Bool
  | .error (.disallowedStyle _) => true
  | _ => false

/-- Did a run of the parser raise `DisallowedElement`? -/
def isDisallowedElementError : Except PyExn Unit → Bool
  | .error (.disallowedElement _) => true
  | _ => false

/-- Does a `cssutils` parse result offend the filter: parse failure, or
some selector that does not start with `".dataframe "`? -/
def cssOffends (r : Except Unit (List (List String))) : Bool :=
  match r with
  | .error _ => true
  | .ok rules => rules.any (fun sels => sels.any (fun s => !(allow_selector s)))

/-- A sample of the external `cssutils` parser behavior, used for
concrete inputs: two parsable stylesheets, the empty stylesheet, a bare
`.dataframe` selector, and a parse failure on everything else. -/
def cssParseDemo (s : String) : Except Unit (List (List String)) :=
  if s = (".dataframe td \x7b color: red \x7d") then .ok [[".dataframe td"]]
  else if s = (".bad \x7b color: red \x7d") then .ok [[".bad"]]
  else if s = (".dataframe \x7b color: red \x7d") then .ok [[".dataframe"]]
  else if s = "" then .ok []
  else .error ()

/-! ## Listing requests (naucse/routes.py `courses`/`runs`,
naucse/utils/routes.py `raise_errors_from_forks` lines 201-216 and
`does_course_return_info` lines 219-251) -/

/-- `raise_errors_from_forks`:

```python
if os.environ.get("RAISE_FORK_ERRORS", "false") == "true":
    return True
return False
```

`env` is the value of the `RAISE_FORK_ERRORS` environment variable. -/
def raise_errors_from_forks (env : Option String) : Bool :=
  if env.getD ("false") = ("true") then true else false

instance {α β : Type} [DecidableEq α] [DecidableEq β] :
    DecidableEq (Except α β) := fun a b =>
  match a, b with
  | .ok x, .ok y =>
    if h : x = y then isTrue (by rw [h])
    else isFalse (fun hc => h (Except.ok.inj hc))
  | .error x, .error y =>
    if h : x = y then isTrue (by rw [h])
    else isFalse (fun hc => h (Except.error.inj hc))
  | .ok _, .error _ => isFalse (fun hc => Except.noConfusion hc)
  | .error _, .ok _ => isFalse (fun hc => Except.noConfusion hc)

/-- What evaluating `course.info` yields when it does not raise: a dict
(modelled by its entries) or some non-dict value. -/
inductive InfoVal where
  | notDict
  | dict (entries : List (String × String))
  deriving DecidableEq, Repr

/-- A course or run as the listing routes see it: `course.is_link()`,
`course.title`, and the outcome of the fork call behind `course.info`. -/
structure CourseEntity where
  slug : String
  title : String
  is_link : Bool
  info : Except PyExn InfoVal
  deriving DecidableEq

/-- Key membership `x in course.info` for every required key. -/
def infoHasKeys (info : Except PyExn InfoVal) (required : List String) : Bool :=
  match info with
  | .ok (.dict entries) => required.all (fun k => entries.any (fun p => p.1 == k))
  | _ => false

/-- The exception kinds caught by `does_course_return_info`
(`PullError`, `BuildError`, `RequirementsMismatch`). -/
def forkFailure : PyExn → Bool
  | .pullError => true
  | .buildError => true
  | .requirementsMismatch => true
  | _ => false

/-- `course.info` either succeeds or raises one of the three sandbox
failure kinds (what `arca.run` can raise). -/
def infoWellBehaved (c : CourseEntity) : Bool :=
  match c.info with
  | .error e => forkFailure e
  | .ok _ => true

/-- `does_course_return_info(course, extra_required, force_ignore)`. -/
def does_course_return_info (env : Option String) (c : CourseEntity)
    (extra_required : List String) (force_ignore : Bool) : Except PyExn Bool :=
  match c.info with
  | .error e =>
    if forkFailure e then
      -- caught by `except (PullError, BuildError, RequirementsMismatch)`
      if raise_errors_from_forks env ∧ ¬ force_ignore then .error e else .ok false
    else
      -- not caught: propagates as-is
      .error e
  | .ok iv =>
    if infoHasKeys (.ok iv) (["title", "description"] ++ extra_required) then
      .ok true
    else if raise_errors_from_forks env ∧ ¬ force_ignore then
      .error (.valueError ("Couldn't get basic info about the course " ++ c.slug ++
        (", the repo didn't return a dict or the required info is missing.")))
    else
      .ok false

/-- One listing entry decision:
`if not course.is_link(): append` / `elif does_course_return_info(...)`. -/
def listingStep (env : Option String) (extra_required : List String)
    (c : CourseEntity) : Except PyExn Bool :=
  if c.is_link = false then .ok true
  else does_course_return_info env c extra_required false

/-- The `safe_courses` / `safe_run_years` accumulation loop shared by
the `courses` and `runs` routes. -/
def safeListing (env : Option String) (extra_required : List String) :
    List CourseEntity → Except PyExn (List CourseEntity)
  | [] => .ok []
  | c :: cs =>
    match listingStep env extra_required c with
    | .error e => .error e
    | .ok b =>
      match safeListing env extra_required cs with
      | .error e => .error e
      | .ok rest => .ok (if b then c :: rest else rest)

/-- The `/courses/` route (naucse/routes.py lines 115-128), reduced to
the list of courses that reach the rendered template. -/
def courses_route (env : Option String) (cs : List CourseEntity) :
    Except PyExn (List CourseEntity) :=
  safeListing env [] cs

/-- The `/runs/` route (naucse/routes.py lines 94-112), reduced to the
per-year lists of runs that reach the rendered template. -/
def runs_route (env : Option String) :
    List (Int × List CourseEntity) → Except PyExn (List (Int × List CourseEntity))
  | [] => .ok []
  | (y, rs) :: years =>
    match safeListing env (["start_date", "end_date"]) rs with
    | .error e => .error e
    | .ok kept =>
      match runs_route env years with
      | .error e => .error e
      | .ok rest => .ok ((y, kept) :: rest)

/-- The lenient-mode keep decision, as a pure predicate. -/
def lenientKeep (extra_required : List String) (c : CourseEntity) : Bool :=
  !c.is_link || infoHasKeys c.info (["title", "description"] ++ extra_required)

/-! ## The content cache and the two rendering paths
(naucse/routes.py `render_page` lines 238-300 and `course_link_page`
lines 397-506) -/

/-- A cached content fragment `{"content": ..., "urls": [...]}`. -/
structure Artifact where
  content : String
  urls : List String
  deriving DecidableEq, Repr

/-- The dogpile cache region, as an association list; `set` prepends,
later bindings shadow earlier ones. -/
abbrev Cache := List (String × Artifact)

/-- `arca.region.get(key)` (returns a falsy `NO_VALUE` when absent,
modelled as `none`). -/
def region_lookup (cache : Cache) (key : String) : Option Artifact :=
  (cache.find? (fun p => p.1 == key)).map Prod.snd

/-- `arca.region.set(key, value)`. -/
def region_set (cache : Cache) (key : String) (a : Artifact) : Cache :=
  (key, a) :: cache

/-- `arca.region.get_or_create(key, creator)` (dogpile contract: the
creator runs only when the key is absent). -/
def region_get_or_create (cache : Cache) (key : String) (creator : Artifact) :
    Artifact × Cache :=
  match region_lookup cache key with
  | some a => (a, cache)
  | none => (creator, region_set cache key creator)

/-- One cache-region operation performed by the resolver.
A `getOrCreate` records the creator value it was called with. -/
inductive CacheOp where
  | get (key : String)
  | set (key : String) (val : Artifact)
  | getOrCreate (key : String) (val : Artifact)
  deriving DecidableEq, Repr

/-- The shared mutable state the two rendering paths touch:
`arca.is_dirty()`, `arca.region`, and the module-level
`urls_from_forks` deque. -/
structure ResolverState where
  is_dirty : Bool
  cache : Cache
  urls_from_forks : List String
  deriving DecidableEq, Repr

/-- What `render_page` binds to `content`: the whole cached dict in the
cached branch, the bare HTML string in the dirty branch. -/
inductive ContentVal where
  | dict (a : Artifact)
  | str (s : String)
  deriving DecidableEq, Repr

structure RenderPageResult where
  content : ContentVal
  state : ResolverState
  trace : List CacheOp
  deriving DecidableEq, Repr

/-- The caching core of `render_page` (naucse/routes.py lines 249-281):

```python
if not arca.is_dirty():
    content = arca.region.get_or_create(content_key, content_creator)
else:
    content = content_creator()["content"]
```

`html` is what `page.render_html(...)` produces; `content_creator()`
returns `{"content": html, "urls": []}`. -/
def render_page (st : ResolverState) (content_key : String) (html : String) :
    RenderPageResult :=
  if st.is_dirty = false then
    let r := region_get_or_create st.cache content_key (Artifact.mk html [])
    { content := .dict r.1,
      state := { st with cache := r.2 },
      trace := [.getOrCreate content_key (Artifact.mk html [])] }
  else
    { content := .str html, state := st, trace := [] }

/-- The exception tuple `POSSIBLE_FORK_EXCEPTIONS`
(naucse/routes.py line 33). -/
def possible_fork_exception : PyExn → Bool
  | .pullError => true
  | .buildError => true
  | .disallowedStyle _ => true
  | .disallowedElement _ => true
  | _ => false

/-- The fields of the dict returned by the fork's `render_page` task
that `course_link_page` reads.  `pageCssBad` records whether
`links.PageLink(data_from_fork.get("page", {}))` raises
`DisallowedStyle` when limiting the page CSS. -/
structure ForkPageData where
  content : Option String
  urls : List String
  pageCssBad : Bool

/-- A `course_link_page` request with its environment-determined
inputs: whether the lesson exists canonically, the outcome of
`course.vars` (a fork info call), the computed cache key and the
outcome of the canonical re-render `course_page(..., error_in_fork=True)`
(its `except:` clause is bare, so any failure is modelled as
`Except.error ()`). -/
structure CourseLinkRequest where
  lessonExists : Bool
  varsOk : Except PyExn Unit
  content_key : String
  canonicalRender : Except Unit String

/-- The outcome of `course_link_page`. -/
inductive CLPOutcome where
  | lessonLink (content : String)
  | canonicalFallback (error_in_fork : Bool) (page : String)
  | errorTemplate
  | raised (e : PyExn)

structure CLPResult where
  outcome : CLPOutcome
  state : ResolverState
  trace : List CacheOp

/-- The `except POSSIBLE_FORK_EXCEPTIONS` handler of
`course_link_page`: canonical fallback with `error_in_fork=True` when
the lesson exists (any failure of that fallback is swallowed by the
bare `except:` and falls through to the `error_in_fork.html`
template). -/
def clp_handler (st : ResolverState) (req : CourseLinkRequest)
    (trace : List CacheOp) : CLPResult :=
  if req.lessonExists then
    match req.canonicalRender with
    | .ok page => ⟨.canonicalFallback true page, st, trace⟩
    | .error _ => ⟨.errorTemplate, st, trace⟩
  else
    ⟨.errorTemplate, st, trace⟩

/-- `course_link_page` (naucse/routes.py lines 397-506).  `forkCall`
models `course.render_page(lesson_slug, page, solution, **kwargs)`; its
argument is the offered `content_key` (present in `kwargs` exactly when
the cache held an offer). -/
def course_link_page (st : ResolverState) (req : CourseLinkRequest)
    (forkCall : Option String → Except PyExn ForkPageData) : CLPResult :=
  match req.varsOk with
  | .error e =>
    if possible_fork_exception e then clp_handler st req []
    else ⟨.raised e, st, []⟩
  | .ok _ =>
    let offer := region_lookup st.cache req.content_key
    let offered : Option String :=
      match offer with
      | some _ => some req.content_key
      | none => none
    match forkCall offered with
    | .error e =>
      if possible_fork_exception e then clp_handler st req [.get req.content_key]
      else ⟨.raised e, st, [.get req.content_key]⟩
    | .ok data =>
      match data.content with
      | none =>
        match offer with
        | none =>
          -- `content_offer["content"]` with `content_offer` falsy:
          -- TypeError, not in POSSIBLE_FORK_EXCEPTIONS
          ⟨.raised (.typeError ("NoneType object is not subscriptable")),
            st, [.get req.content_key]⟩
        | some a =>
          let st2 := { st with urls_from_forks := st.urls_from_forks ++ a.urls }
          if data.pageCssBad then clp_handler st2 req [.get req.content_key]
          else ⟨.lessonLink a.content, st2, [.get req.content_key]⟩
      | some c =>
        let st2 := { st with
          cache := region_set st.cache req.content_key (Artifact.mk c data.urls) }
        let tr := [CacheOp.get req.content_key,
          CacheOp.set req.content_key (Artifact.mk c data.urls)]
        if data.pageCssBad then clp_handler st2 req tr
        else ⟨.lessonLink c, st2, tr⟩

/-! ## The fork-side `render` (naucse/utils/forks.py lines 77-206) -/

/-- The dispatch of the fork-side `render(page_type, slug, ...)`.  The
`calendar`, `calendar_ics`, `course_page` and `session_coverpage`
branches each begin with `raise ValueError("Test exceptions")`, so they
unconditionally fail before any of their logic runs. -/
def fork_render (page_type : String) (isLinkCourse : Bool) : Except PyExn Unit :=
  if isLinkCourse then .error (.valueError ("Circular dependency."))
  else if page_type = "course" then .ok ()
  else if page_type = "calendar" then .error (.valueError ("Test exceptions"))
  else if page_type = "calendar_ics" then .error (.valueError ("Test exceptions"))
  else if page_type = "course_page" then .error (.valueError ("Test exceptions"))
  else if page_type = "session_coverpage" then .error (.valueError ("Test exceptions"))
  else .error (.valueError ("Invalid page type."))

/-- The content-offer logic of the `course_page` branch of the
fork-side `render` (naucse/utils/forks.py lines 124-146) — dead code in
the actual program, reached only after the `raise` above it is removed:
returns the `("content", "content_urls")` pair of the response. -/
def fork_course_page_offer (content_offer_key : Option String)
    (content_key : String) (rendered : Artifact) :
    Option String × List String :=
  match content_offer_key with
  | some k =>
    if k = content_key then (none, [])
    else (some rendered.content, rendered.urls)
  | none => (some rendered.content, rendered.urls)

/-! ## Request sequences and the write-once property (C8) -/

/-- A page-render request reaching the resolver. -/
inductive PageRequest where
  | canonical (content_key : String) (html : String)
  | delegated (req : CourseLinkRequest)
      (forkCall : Option String → Except PyExn ForkPageData)

/-- Run a sequence of requests, collecting the cache-operation trace. -/
def run_requests (st : ResolverState) :
    List PageRequest → ResolverState × List CacheOp
  | [] => (st, [])
  | r :: rs =>
    let step :=
      match r with
      | .canonical key html =>
        let res := render_page st key html
        (res.state, res.trace)
      | .delegated req forkCall =>
        let res := course_link_page st req forkCall
        (res.state, res.trace)
    let rest := run_requests step.1 rs
    (rest.1, step.2 ++ rest.2)

/-- Replay a trace against a cache. -/
def replayCache (cache : Cache) : List CacheOp → Cache
  | [] => cache
  | .get _ :: ops => replayCache cache ops
  | .getOrCreate k v :: ops =>
    replayCache (region_get_or_create cache k v).2 ops
  | .set k v :: ops => replayCache (region_set cache k v) ops

/-- Does a trace, replayed against `cache`, ever overwrite an existing
entry with a different artifact? -/
def overwriteViolation (cache : Cache) : List CacheOp → Bool
  | [] => false
  | .get _ :: ops => overwriteViolation cache ops
  | .getOrCreate k v :: ops =>
    overwriteViolation (region_get_or_create cache k v).2 ops
  | .set k v :: ops =>
    match region_lookup cache k with
    | some a => if a ≠ v then true else overwriteViolation (region_set cache k v) ops
    | none => overwriteViolation (region_set cache k v) ops

/-- The cache holds only values of a fixed producer function. -/
def cacheRespects (producer : String → Artifact) (cache : Cache) : Prop :=
  ∀ k a, region_lookup cache k = some a → a = producer k

/-- All content a request can write agrees with the producer (the
deterministic-render assumption of the spec). -/
def requestRespects (producer : String → Artifact) : PageRequest → Prop
  | .canonical key html => Artifact.mk html [] = producer key
  | .delegated req forkCall =>
    ∀ o data, forkCall o = .ok data →
      ∀ c, data.content = some c →
        Artifact.mk c data.urls = producer req.content_key

/-! ## The freezing crawler (naucse/freezer.py lines 34-147)

`AllLinksLogger` holds two queues: `self.logged_calls` (route
invocations logged via `url_for`, inherited from `UrlForLogger`) and
`self.links` (links harvested from delegated HTML).  `iter_calls`
interleaves them; the freezer builds each yielded URL with
`_build_one`, which can append to both queues before the generator
resumes. -/

/-- Crawl state: the two queues and the set of destination files
already written. -/
structure CrawlState where
  routeQ : List String
  linkQ : List String
  written : List String
  deriving DecidableEq, Repr

/-- What building one URL adds to the two queues: route invocations
logged during the render, and links harvested from the HTML when the
response carries `X-RENDERED-FROM-ARCA`. -/
structure PageEffect where
  routeAdds : List String
  linkAdds : List String
  deriving DecidableEq, Repr

/-- `NaucseFreezer._build_one(url)` acting on the crawl state.  With
`FREEZER_SKIP_EXISTING` set, an existing destination file returns early
(freezer.py lines 73-75) before the page is fetched or scanned;
otherwise the page is fetched (appending logged route invocations and,
for delegated HTML, harvested links) and the file written unless its
content is unchanged. -/
def build_one (skipExisting : Bool) (pages : String → PageEffect)
    (s : CrawlState) (url : String) : CrawlState :=
  if skipExisting ∧ url ∈ s.written then s
  else
    { routeQ := s.routeQ ++ (pages url).routeAdds,
      linkQ := s.linkQ ++ (pages url).linkAdds,
      written := if url ∈ s.written then s.written else url :: s.written }

/-- One iteration of the `while` loop of `AllLinksLogger.iter_calls`

```python
while self.logged_calls or self.links:
    if self.logged_calls:
        yield self.logged_calls.popleft()
    if self.links:
        yield self.links.popleft()
```

with the freezer building each yielded URL before the generator
resumes. -/
def crawl_iter (skipExisting : Bool) (pages : String → PageEffect)
    (s : CrawlState) : CrawlState :=
  let s1 :=
    match s.routeQ with
    | [] => s
    | u :: rest => build_one skipExisting pages { s with routeQ := rest } u
  match s1.linkQ with
  | [] => s1
  | u :: rest => build_one skipExisting pages { s1 with linkQ := rest } u

/-- The URLs `iter_calls` yields during one iteration. -/
def iter_calls_yields (skipExisting : Bool) (pages : String → PageEffect)
    (s : CrawlState) : List String :=
  match s.routeQ with
  | [] =>
    match s.linkQ with
    | [] => []
    | u :: _ => [u]
  | u :: rest =>
    match (build_one skipExisting pages { s with routeQ := rest } u).linkQ with
    | [] => [u]
    | v :: _ => [u, v]

/-- The loop guard: `iter_calls` stops exactly when both queues are
simultaneously empty. -/
def crawlDone (s : CrawlState) : Bool := s.routeQ.isEmpty && s.linkQ.isEmpty

/-- `n` iterations of the crawl loop. -/
def crawl_run (skipExisting : Bool) (pages : String → PageEffect) :
    Nat → CrawlState → CrawlState
  | 0, s => s
  | n + 1, s => crawl_run skipExisting pages n (crawl_iter skipExisting pages s)

/-- Both queues always hold URLs of the finite URL universe `U`. -/
def crawlInv (U : Finset String) (s : CrawlState) : Prop :=
  (∀ u ∈ s.routeQ, u ∈ U) ∧ (∀ u ∈ s.linkQ, u ∈ U)

/-- Every page's effect stays inside the universe `U` and adds at most
`B` queue items. -/
def pagesBounded (U : Finset String) (B : Nat)
    (pages : String → PageEffect) : Prop :=
  ∀ u ∈ U, (∀ v ∈ (pages u).routeAdds, v ∈ U) ∧
    (∀ v ∈ (pages u).linkAdds, v ∈ U) ∧
    (pages u).routeAdds.length + (pages u).linkAdds.length ≤ B

/-- Termination measure: unwritten universe URLs weighted by `B + 1`,
plus the queue lengths. -/
def crawlMeasure (U : Finset String) (B : Nat) (s : CrawlState) : Nat :=
  (U.filter (fun x => x ∉ s.written)).card * (B + 1) +
    s.routeQ.length + s.linkQ.length

/-! ## `json.dumps(..., sort_keys=True)` and the cache-key builder
(naucse/utils/routes.py `page_content_cache_key` lines 254-271,
naucse/routes.py `page_content_cache_key` lines 225-235) -/

/-- A Python dict key as `json` sees it (`str` or `int`). -/
inductive JKey where
  | str (s : String)
  | int (n : Int)
  deriving DecidableEq, Repr

/-- A JSON-serializable Python value. -/
inductive JVal where
  | null
  | bool (b : Bool)
  | int (n : Int)
  | str (s : String)
  | arr (xs : List JVal)
  | obj (fields : List (JKey × JVal))

/-- Lowercase hex digit. -/
def hexDigitChar (n : Nat) : Char :=
  if n < 10 then Char.ofNat (48 + n) else Char.ofNat (87 + n)

/-- `\uXXXX`. -/
def uEscape (n : Nat) : List Char :=
  [Char.ofNat 92, 'u', hexDigitChar (n / 4096 % 16), hexDigitChar (n / 256 % 16),
   hexDigitChar (n / 16 % 16), hexDigitChar (n % 16)]

/-- `json`'s `ensure_ascii` escaping of one character: backslash,
quote, the short escapes, `\uXXXX` for other characters outside
`0x20`-`0x7e` (with surrogate pairs above `0xFFFF`). -/
def escapeChar (c : Char) : List Char :=
  if c = Char.ofNat 34 then [Char.ofNat 92, Char.ofNat 34]
  else if c = Char.ofNat 92 then [Char.ofNat 92, Char.ofNat 92]
  else if c = Char.ofNat 8 then [Char.ofNat 92, 'b']
  else if c = Char.ofNat 9 then [Char.ofNat 92, 't']
  else if c = Char.ofNat 10 then [Char.ofNat 92, 'n']
  else if c = Char.ofNat 12 then [Char.ofNat 92, 'f']
  else if c = Char.ofNat 13 then [Char.ofNat 92, 'r']
  else if c.toNat < 32 ∨ c.toNat ≥ 127 then
    if c.toNat ≥ 65536 then
      uEscape (55296 + (c.toNat - 65536) / 1024) ++
        uEscape (56320 + (c.toNat - 65536) % 1024)
    else uEscape c.toNat
  else [c]

/-- A JSON string literal. -/
def py_json_quote (s : String) : List Char :=
  Char.ofNat 34 :: (s.data.map escapeChar).flatten ++ [Char.ofNat 34]

/-- A serialized dict key (`json` stringifies `int` keys). -/
def serKey : JKey → List Char
  | .str s => py_json_quote s
  | .int n => py_json_quote (toString n)

/-- Python's lexicographic string comparison, by code point. -/
def charListLe : List Char → List Char → Bool
  | [], _ => true
  | _ :: _, [] => false
  | c :: cs, d :: ds =>
    if c.toNat < d.toNat then true
    else if d.toNat < c.toNat then false
    else charListLe cs ds

/-- Python `a <= b` on strings. -/
def pyStrLe (a b : String) : Bool := charListLe a.data b.data

/-- The order `sorted(d.items())` uses on keys.  For keys of the same
type it is the Python `<=`; a mixed-type dict raises `TypeError` in
Python, which the serializer checks separately (`keysHomogeneous`), so
the value of this function on mixed keys is never exercised. -/
def jkeyLe : JKey → JKey → Bool
  | .int a, .int b => decide (a ≤ b)
  | .int _, .str _ => true
  | .str _, .int _ => false
  | .str a, .str b => pyStrLe a b

/-- All keys `str`, or all keys `int` (otherwise `sorted` raises
`TypeError`). -/
def keysHomogeneous (fields : List (JKey × JVal)) : Bool :=
  fields.all (fun p => match p.1 with | .str _ => true | _ => false) ||
    fields.all (fun p => match p.1 with | .int _ => true | _ => false)

/-- `", "`-join (the default `json.dumps` item separator). -/
def joinComma : List (List Char) → List Char
  | [] => []
  | [x] => x
  | x :: xs => x ++ ',' :: ' ' :: joinComma xs

/-! Serialization: values are serialized in place and dict items sorted
by key before being joined (`sort_keys=True`; sorting compares only
keys, which is equivalent to Python's sort-then-serialize because dict
keys are unique).  A mixed-key dict is a `TypeError`, modelled as
`Except.error ()`. -/
mutual

def dumpsVal : JVal → Except Unit (List Char)
  | .null => .ok (("null").data)
  | .bool true => .ok (("true").data)
  | .bool false => .ok (("false").data)
  | .int n => .ok ((toString n).data)
  | .str s => .ok (py_json_quote s)
  | .arr xs =>
    match dumpsList xs with
    | .error e => .error e
    | .ok parts => .ok ('[' :: joinComma parts ++ [']'])
  | .obj fields =>
    if keysHomogeneous fields = true then
      match dumpsPairs fields with
      | .error e => .error e
      | .ok pairs =>
        .ok (Char.ofNat 123 ::
          joinComma ((List.insertionSort
              (fun a b : JKey × List Char => jkeyLe a.1 b.1 = true) pairs).map
            (fun p => serKey p.1 ++ ':' :: ' ' :: p.2)) ++ [Char.ofNat 125])
    else .error ()

def dumpsList : List JVal → Except Unit (List (List Char))
  | [] => .ok []
  | x :: xs =>
    match dumpsVal x, dumpsList xs with
    | .ok sx, .ok rest => .ok (sx :: rest)
    | .error e, _ => .error e
    | _, .error e => .error e

def dumpsPairs : List (JKey × JVal) → Except Unit (List (JKey × List Char))
  | [] => .ok []
  | p :: ps =>
    match dumpsVal p.2, dumpsPairs ps with
    | .ok sv, .ok rest => .ok ((p.1, sv) :: rest)
    | .error e, _ => .error e
    | _, .error e => .error e

end

/-! ### SHA-1 (`hashlib.sha1`), over byte lists, word arithmetic mod
`2^32` -/

def rotl32 (n x : Nat) : Nat :=
  ((x <<< n) % 4294967296) ||| (x >>> (32 - n))

def sha1_f (t b c d : Nat) : Nat :=
  if t < 20 then (b &&& c) ||| ((b ^^^ 4294967295) &&& d)
  else if t < 40 then b ^^^ c ^^^ d
  else if t < 60 then (b &&& c) ||| (b &&& d) ||| (c &&& d)
  else b ^^^ c ^^^ d

def sha1_k (t : Nat) : Nat :=
  if t < 20 then 1518500249
  else if t < 40 then 1859775393
  else if t < 60 then 2400959708
  else 3395469782

/-- 64 bytes into 16 big-endian 32-bit words. -/
def bytesToWords : List Nat → List Nat
  | b0 :: b1 :: b2 :: b3 :: rest =>
    (((b0 * 256 + b1) * 256 + b2) * 256 + b3) :: bytesToWords rest
  | _ => []

/-- Message-schedule extension to 80 words. -/
def extendTo80 (w : List Nat) : List Nat :=
  if _h : 80 ≤ w.length then w
  else
    extendTo80 (w ++ [rotl32 1 ((w.getD (w.length - 3) 0) ^^^
      (w.getD (w.length - 8) 0) ^^^ (w.getD (w.length - 14) 0) ^^^
      (w.getD (w.length - 16) 0))])
termination_by 80 - w.length
decreasing_by
  simp only [List.length_append, List.length_cons, List.length_nil]
  omega

/-- The 80 compression rounds. -/
def sha1_rounds (w : List Nat) :
    Nat → Nat × Nat × Nat × Nat × Nat → Nat × Nat × Nat × Nat × Nat
  | t, (a, b, c, d, e) =>
    if h : t < 80 then
      sha1_rounds w (t + 1)
        ((rotl32 5 a + sha1_f t b c d + e + sha1_k t + w.getD t 0) % 4294967296,
          a, rotl32 30 b, c, d)
    else (a, b, c, d, e)
termination_by t => 80 - t

/-- One 512-bit block. -/
def sha1_block (block : List Nat) (h : Nat × Nat × Nat × Nat × Nat) :
    Nat × Nat × Nat × Nat × Nat :=
  let w := extendTo80 (bytesToWords block)
  let r := sha1_rounds w 0 h
  ((h.1 + r.1) % 4294967296,
   (h.2.1 + r.2.1) % 4294967296,
   (h.2.2.1 + r.2.2.1) % 4294967296,
   (h.2.2.2.1 + r.2.2.2.1) % 4294967296,
   (h.2.2.2.2 + r.2.2.2.2) % 4294967296)

def sha1_blocks (h : Nat × Nat × Nat × Nat × Nat) :
    List Nat → Nat × Nat × Nat × Nat × Nat
  | [] => h
  | b :: bs => sha1_blocks (sha1_block ((b :: bs).take 64) h) ((b :: bs).drop 64)
termination_by l => l.length
decreasing_by
  simp only [List.length_drop, List.length_cons]
  omega

/-- Merkle–Damgård padding: `0x80`, zeros to 56 mod 64, 8-byte
big-endian bit length. -/
def sha1_pad (msg : List Nat) : List Nat :=
  let ml := msg.length * 8
  msg ++ [128] ++ List.replicate ((119 - msg.length % 64) % 64) 0 ++
    [ml / 72057594037927936 % 256, ml / 281474976710656 % 256,
     ml / 1099511627776 % 256, ml / 4294967296 % 256,
     ml / 16777216 % 256, ml / 65536 % 256, ml / 256 % 256, ml % 256]

def wordHex (w : Nat) : List Char :=
  [hexDigitChar (w / 268435456 % 16), hexDigitChar (w / 16777216 % 16),
   hexDigitChar (w / 1048576 % 16), hexDigitChar (w / 65536 % 16),
   hexDigitChar (w / 4096 % 16), hexDigitChar (w / 256 % 16),
   hexDigitChar (w / 16 % 16), hexDigitChar (w % 16)]

/-- `hashlib.sha1(data).hexdigest()`. -/
def sha1_hexdigest (msg : List Nat) : String :=
  let r := sha1_blocks (1732584193, 4023233417, 2562383102, 271733878, 3285377520)
    (sha1_pad msg)
  ⟨wordHex r.1 ++ wordHex r.2.1 ++ wordHex r.2.2.1 ++ wordHex r.2.2.2.1 ++
    wordHex r.2.2.2.2⟩

/-- UTF-8 bytes of a string (`.encode("utf-8")`). -/
def str_utf8 (s : String) : List Nat :=
  s.toUTF8.toList.map (fun b => b.toNat)

/-- `"commit:{rev}:content:{sha1(json).hexdigest()}"` assembled from a
serialized info dict. -/
def key_of_serialized (rev : String) (ser : Except Unit (List Char)) :
    Except Unit String :=
  match ser with
  | .error e => .error e
  | .ok json =>
    .ok (("commit:") ++ rev ++ (":content:") ++
      sha1_hexdigest (str_utf8 ⟨json⟩))

/-- `page_content_cache_key` of naucse/routes.py (lines 225-235): an
arbitrary `info` value serialized with sorted keys, prefixed with the
last commit modifying lessons/rendering code. -/
def page_content_cache_key_info (lessons_rev : String) (info : JVal) :
    Except Unit String :=
  key_of_serialized lessons_rev (dumpsVal info)

/-- Did a sub-serialization succeed? -/
def serOk : Except Unit (List Char) → Bool
  | .ok _ => true
  | .error _ => false

/-- The serialized characters of a successful sub-serialization. -/
def serVal : Except Unit (List Char) → List Char
  | .ok l => l
  | .error _ => []

/-- `page_content_cache_key` of naucse/utils/routes.py (lines 254-271):
the five-field identity dict, prefixed with
`last_commit_modifying_naucse`;  `lesson_rev` is
`last_commit_modifying_lesson(repo, lesson_slug)`. -/
def page_content_cache_key (naucse_rev lesson_rev lesson_slug page : String)
    (solution course_vars : JVal) : Except Unit String :=
  key_of_serialized naucse_rev (dumpsVal (.obj
    [(.str ("lesson"), .str lesson_slug),
     (.str ("page"), .str page),
     (.str ("solution"), solution),
     (.str ("vars"), course_vars),
     (.str ("lesson_last_modified_by"), .str lesson_rev)]))

/-! ====================  THEOREMS  ==================== -/

theorem monthIndex_decodeMonth (i : Int) :
    monthIndex (decodeMonth i).1 (decodeMonth i).2 = i := by
  simp only [monthIndex, decodeMonth]
  omega

theorem decodeMonth_monthIndex (y m : Int) (h1 : 1 ≤ m) (h2 : m ≤ 12) :
    decodeMonth (monthIndex y m) = (y, m) := by
  simp only [monthIndex, decodeMonth, Prod.mk.injEq]
  omega

theorem decodeMonth_month_bounds (i : Int) :
    1 ≤ (decodeMonth i).2 ∧ (decodeMonth i).2 ≤ 12 := by
  simp only [decodeMonth]
  omega

theorem monthRange_nil (a b : Int) (h : b < a) : monthRange a b = [] := by
  simp only [monthRange]
  have h0 : (b + 1 - a).toNat = 0 := by omega
  rw [h0]
  rfl

theorem monthRange_cons (a b : Int) (h : a ≤ b) :
    monthRange a b = decodeMonth a :: monthRange (a + 1) b := by
  simp only [monthRange]
  have hn : (b + 1 - a).toNat = (b + 1 - (a + 1)).toNat + 1 := by omega
  rw [hn, List.range_succ_eq_map]
  simp only [List.map_cons, List.map_map]
  congr 1
  · norm_num
  · apply List.map_congr_left
    intro k _
    simp only [Function.comp_apply]
    congr 1
    push_cast
    ring

theorem monthPairLe_iff_monthIndex_le (y m ey em : Int)
    (h1 : 1 ≤ m) (h2 : m ≤ 12) (he1 : 1 ≤ em) (he2 : em ≤ 12) :
    monthPairLe y m ey em ↔ monthIndex y m ≤ monthIndex ey em := by
  simp only [monthPairLe, monthIndex]
  omega

/-- The loop of `list_months` produces exactly the month range between
the start index and the end index. -/
theorem list_months_loop_eq (ey em : Int) (he1 : 1 ≤ em) (he2 : em ≤ 12) :
    ∀ (k : Nat) (y m : Int) (h1 : 1 ≤ m) (h2 : m ≤ 12),
      (12 * ey + em + 1 - (12 * y + m)).toNat ≤ k →
      list_months_loop ey em he1 he2 y m h1 h2 =
        monthRange (monthIndex y m) (monthIndex ey em) := by
  intro k
  induction k with
  | zero =>
    intro y m h1 h2 hk
    rw [list_months_loop]
    have hg : ¬ monthPairLe y m ey em := by
      simp only [monthPairLe]
      omega
    rw [dif_neg hg]
    rw [monthRange_nil]
    rw [monthPairLe_iff_monthIndex_le y m ey em h1 h2 he1 he2] at hg
    omega
  | succ n ih =>
    intro y m h1 h2 hk
    rw [list_months_loop]
    by_cases hg : monthPairLe y m ey em
    · rw [dif_pos hg]
      have hle : monthIndex y m ≤ monthIndex ey em :=
        (monthPairLe_iff_monthIndex_le y m ey em h1 h2 he1 he2).mp hg
      rw [monthRange_cons _ _ hle]
      rw [decodeMonth_monthIndex y m h1 h2]
      by_cases hm : m + 1 > 12
      · rw [dif_pos hm]
        rw [ih (y + 1) 1 (by omega) (by omega) (by simp only [monthPairLe] at hg; omega)]
        congr 2
        simp only [monthIndex]
        omega
      · rw [dif_neg hm]
        rw [ih y (m + 1) (by omega) (by omega) (by simp only [monthPairLe] at hg; omega)]
        congr 2
        simp only [monthIndex]
        omega
    · rw [dif_neg hg]
      rw [monthPairLe_iff_monthIndex_le y m ey em h1 h2 he1 he2] at hg
      rw [monthRange_nil]
      omega

theorem list_months_eq (s e : PyDate) :
    list_months s e = monthRange (monthIndex s.year s.month) (monthIndex e.year e.month) :=
  list_months_loop_eq e.year e.month e.month_ge e.month_le _ s.year s.month
    s.month_ge s.month_le le_rfl

theorem mem_monthRange (a b : Int) (p : Int × Int) :
    p ∈ monthRange a b ↔
      (a ≤ monthIndex p.1 p.2 ∧ monthIndex p.1 p.2 ≤ b ∧ 1 ≤ p.2 ∧ p.2 ≤ 12) := by
  simp only [monthRange, List.mem_map, List.mem_range]
  constructor
  · rintro ⟨k, hk, rfl⟩
    refine ⟨?_, ?_, (decodeMonth_month_bounds _).1, (decodeMonth_month_bounds _).2⟩
    · rw [monthIndex_decodeMonth]
      omega
    · rw [monthIndex_decodeMonth]
      omega
  · rintro ⟨hab, hbb, h1, h2⟩
    refine ⟨(monthIndex p.1 p.2 - a).toNat, by omega, ?_⟩
    have harg : a + ((monthIndex p.1 p.2 - a).toNat : Int) = monthIndex p.1 p.2 := by
      omega
    rw [harg, decodeMonth_monthIndex p.1 p.2 h1 h2]

theorem monthRange_pairwise (a b : Int) :
    List.Pairwise (fun p q : Int × Int => monthIndex p.1 p.2 < monthIndex q.1 q.2)
      (monthRange a b) := by
  simp only [monthRange, List.pairwise_map]
  apply (List.pairwise_lt_range _).imp
  intro i j hij
  rw [monthIndex_decodeMonth, monthIndex_decodeMonth]
  omega

theorem monthRange_chain (a b : Int) :
    List.Chain' (fun p q : Int × Int => monthIndex q.1 q.2 = monthIndex p.1 p.2 + 1)
      (monthRange a b) := by
  by_cases hab : a ≤ b
  · have hk : ∃ k : Nat, (b - a).toNat = k := ⟨_, rfl⟩
    obtain ⟨k, hk⟩ := hk
    induction k generalizing a with
    | zero =>
      rw [monthRange_cons a b hab, monthRange_nil (a + 1) b (by omega)]
      exact List.chain'_singleton _
    | succ n ih =>
      rw [monthRange_cons a b hab]
      rw [List.chain'_cons']
      refine ⟨?_, ih (a + 1) (by omega) (by omega)⟩
      intro q hq
      rw [monthRange_cons (a + 1) b (by omega)] at hq
      simp only [List.head?_cons, Option.mem_def, Option.some.injEq] at hq
      subst hq
      rw [monthIndex_decodeMonth, monthIndex_decodeMonth]
  · rw [monthRange_nil a b (by omega)]
    exact List.chain'_nil

theorem monthRange_head? (a b : Int) (h : a ≤ b) :
    (monthRange a b).head? = some (decodeMonth a) := by
  rw [monthRange_cons a b h]
  rfl

theorem monthRange_getLast? (a b : Int) (h : a ≤ b) :
    (monthRange a b).getLast? = some (decodeMonth b) := by
  have hk : ∃ k : Nat, (b - a).toNat = k := ⟨_, rfl⟩
  obtain ⟨k, hk⟩ := hk
  induction k generalizing a with
  | zero =>
    have hab : a = b := by omega
    subst hab
    rw [monthRange_cons a a le_rfl, monthRange_nil (a + 1) a (by omega)]
    rfl
  | succ n ih =>
    have h1 : a + 1 ≤ b := by omega
    rw [monthRange_cons a b h]
    have h2 := ih (a + 1) h1 (by omega)
    rw [monthRange_cons (a + 1) b h1] at h2 ⊢
    rw [List.getLast?_cons_cons]
    exact h2

/-- **C9.** For all dates `start` and `end` with
`(start.year, start.month) <= (end.year, end.month)`, `list_months`
returns exactly the consecutive `(year, month)` pairs from the start
month through the end month, inclusive on both ends and in strictly
increasing chronological order; in particular
`list_months(2016-12-03, 2016-12-03) = [(2016, 12)]` and
`list_months(2016-12-03, 2017-01-03) = [(2016, 12), (2017, 1)]`. -/
theorem list_months_correct :
    (∀ s e : PyDate, monthPairLe s.year s.month e.year e.month →
      (list_months s e).head? = some (s.year, s.month) ∧
      (list_months s e).getLast? = some (e.year, e.month) ∧
      (∀ y m : Int, (y, m) ∈ list_months s e ↔
        (1 ≤ m ∧ m ≤ 12 ∧ monthPairLe s.year s.month y m ∧
          monthPairLe y m e.year e.month)) ∧
      List.Pairwise (fun p q : Int × Int => monthIndex p.1 p.2 < monthIndex q.1 q.2)
        (list_months s e) ∧
      List.Chain' (fun p q : Int × Int => monthIndex q.1 q.2 = monthIndex p.1 p.2 + 1)
        (list_months s e)) ∧
    list_months ⟨2016, 12, 3, by norm_num, by norm_num⟩
        ⟨2016, 12, 3, by norm_num, by norm_num⟩ = [(2016, 12)] ∧
    list_months ⟨2016, 12, 3, by norm_num, by norm_num⟩
        ⟨2017, 1, 3, by norm_num, by norm_num⟩ = [(2016, 12), (2017, 1)] := by
  refine ⟨?_, ?_, ?_⟩
  · intro s e hse
    have hle : monthIndex s.year s.month ≤ monthIndex e.year e.month :=
      (monthPairLe_iff_monthIndex_le _ _ _ _ s.month_ge s.month_le
        e.month_ge e.month_le).mp hse
    rw [list_months_eq s e]
    refine ⟨?_, ?_, ?_, monthRange_pairwise _ _, monthRange_chain _ _⟩
    · rw [monthRange_head? _ _ hle, decodeMonth_monthIndex _ _ s.month_ge s.month_le]
    · rw [monthRange_getLast? _ _ hle, decodeMonth_monthIndex _ _ e.month_ge e.month_le]
    · intro y m
      rw [mem_monthRange]
      constructor
      · rintro ⟨h1, h2, h3, h4⟩
        exact ⟨h3, h4,
          (monthPairLe_iff_monthIndex_le _ _ _ _ s.month_ge s.month_le h3 h4).mpr h1,
          (monthPairLe_iff_monthIndex_le _ _ _ _ h3 h4 e.month_ge e.month_le).mpr h2⟩
      · rintro ⟨h3, h4, h1, h2⟩
        exact ⟨(monthPairLe_iff_monthIndex_le _ _ _ _ s.month_ge s.month_le h3 h4).mp h1,
          (monthPairLe_iff_monthIndex_le _ _ _ _ h3 h4 e.month_ge e.month_le).mp h2,
          h3, h4⟩
  · rw [list_months_eq]
    decide
  · rw [list_months_eq]
    decide

/-- Witness for C9: the hypothesis of the universally quantified part
is discharged at the concrete pair of dates from the spec example. -/
theorem list_months_correct_witness :
    monthPairLe 2016 12 2017 1 ∧
    (list_months ⟨2016, 12, 3, by norm_num, by norm_num⟩
        ⟨2017, 1, 3, by norm_num, by norm_num⟩).head? = some (2016, 12) :=
  ⟨by decide,
    (list_months_correct.1 ⟨2016, 12, 3, by norm_num, by norm_num⟩
      ⟨2017, 1, 3, by norm_num, by norm_num⟩ (by decide)).1⟩

/-- **C2** (code bug).  The claim says a URL is appended iff it is
root-relative and that the scan never raises.  The code's `should_add`
reads `bool(urlparse(url).netloc) and url.starstwith("/")`: the
condition is inverted (truthy netloc means the URL is absolute) and
`starstwith` is a misspelling of `startswith`, so:
no URL is ever appended (`should_add` never returns `True`), the
root-relative URL `/courses/` is dropped, and any URL with a host such
as `https://example.com/x` raises `AttributeError`. -/
theorem should_add_divergence :
    (∀ url : String, should_add url ≠ .ok true) ∧
    (∀ (links : List String) (tag : String)
        (attrs : List (String × Option String)),
      handle_starttag links tag attrs = .ok links ∨
        ∃ e, handle_starttag links tag attrs = .error e) ∧
    urlparse_netloc ("/courses/") = "" ∧
    handle_starttag [] ("a") [(("href"), some ("/courses/"))] = .ok [] ∧
    urlparse_netloc ("https://example.com/x") = ("example.com") ∧
    handle_starttag [] ("a") [(("href"), some ("https://example.com/x"))] =
      .error (.attributeError ("str object has no attribute starstwith")) ∧
    handle_startendtag [] ("img") [(("src"), some ("/static/logo.png"))] = .ok [] := by
  have hnever : ∀ url : String, should_add url ≠ .ok true := by
    intro url
    unfold should_add
    split
    · intro h
      exact Bool.false_ne_true (Except.ok.inj h)
    · intro h
      exact Except.noConfusion h
  refine ⟨hnever, ?_, by decide, by rfl, by decide, by rfl, by rfl⟩
  intro links tag attrs
  unfold handle_starttag
  split
  · cases hget : attrsGet attrs ("href") with
    | none => exact Or.inl rfl
    | some v =>
      cases v with
      | none => exact Or.inl rfl
      | some href =>
        dsimp only
        by_cases hne : href ≠ ""
        · rw [if_pos hne]
          cases hsa : should_add href with
          | error e => exact Or.inr ⟨e, rfl⟩
          | ok b =>
            cases b with
            | false => exact Or.inl rfl
            | true => exact absurd hsa (hnever href)
        · rw [if_neg hne]
          exact Or.inl rfl
  · exact Or.inl rfl

/-- Witness for C2: the no-append-or-raise disjunction applied at a
concrete start tag. -/
theorem should_add_divergence_witness :
    handle_starttag [] ("a") [(("href"), some ("/x/"))] = .ok [] ∨
      ∃ e, handle_starttag [] ("a") [(("href"), some ("/x/"))] = .error e :=
  should_add_divergence.2.1 [] ("a") [(("href"), some ("/x/"))]

theorem any_not_eq_not_all {α : Type} (l : List α) (p : α → Bool) :
    (l.any fun s => !(p s)) = !(l.all p) := by
  induction l with
  | nil => rfl
  | cons a t ih => simp [List.any_cons, List.all_cons, ih, Bool.not_and]

/-- The CSS half of C10, as an equation: `validate_css` raises
`DisallowedStyle` exactly when the stylesheet fails to parse or some
rule has a selector not starting with `".dataframe "`. -/
theorem validate_css_eq_cssOffends
    (cssParse : String → Except Unit (List (List String))) (d : String) :
    isDisallowedStyleError (validate_css cssParse d) = cssOffends (cssParse d) := by
  unfold validate_css cssOffends
  cases hp : cssParse d with
  | error e => rfl
  | ok rules =>
    dsimp only
    by_cases hlen : rules.length = 0
    · rw [if_pos hlen]
      have : rules = [] := List.length_eq_zero.mp hlen
      subst this
      rfl
    · rw [if_neg hlen]
      have hd : (rules.any fun sels => sels.any fun s => !(allow_selector s)) =
          !(rules.all fun sels => sels.all allow_selector) := by
        have hinner : (fun sels : List String => sels.any fun s => !(allow_selector s)) =
            (fun sels : List String => !(sels.all allow_selector)) := by
          funext sels
          exact any_not_eq_not_all sels allow_selector
        rw [hinner]
        exact any_not_eq_not_all rules (fun sels => sels.all allow_selector)
      by_cases hall : (rules.all fun sels => sels.all allow_selector) = true
      · rw [if_pos hall]
        rw [hd, hall]
        rfl
      · rw [if_neg hall]
        rw [hd, Bool.not_eq_true] at *
        rw [Bool.eq_false_iff] at hall
        simp [isDisallowedStyleError, hd, Bool.not_eq_true, Bool.eq_false_iff, hall]

/-- Every exception raised by `validate_css` is a `DisallowedStyle`. -/
theorem validate_css_error_is_style
    {cssParse : String → Except Unit (List (List String))} {s : String}
    {err : PyExn} (hv : validate_css cssParse s = .error err) :
    ∃ msg, err = .disallowedStyle msg := by
  unfold validate_css at hv
  cases hp : cssParse s with
  | error u =>
    rw [hp] at hv
    exact ⟨_, (Except.error.inj hv).symm⟩
  | ok rules =>
    rw [hp] at hv
    dsimp only at hv
    split at hv
    · exact absurd hv (by simp)
    · split at hv
      · exact absurd hv (by simp)
      · exact ⟨_, (Except.error.inj hv).symm⟩

/-- The element half of C10, amended: provided no style validation
error preempts it, a run raises `DisallowedElement` exactly when the
fragment contains a disallowed tag. -/
theorem runFeed_element_iff
    (cssParse : String → Except Unit (List (List String))) :
    ∀ (events : List HtmlEvent) (lasttag : String),
      isDisallowedStyleError (runFeed cssParse lasttag events) = false →
      isDisallowedElementError (runFeed cssParse lasttag events) =
        containsDisallowedTag events := by
  intro events
  induction events with
  | nil =>
    intro lasttag _
    rfl
  | cons e es ih =>
    intro lasttag hns
    unfold runFeed at hns ⊢
    rw [feedEvents] at hns ⊢
    cases e with
    | starttag t =>
      simp only [feedEvent] at hns ⊢
      by_cases hcont : allowed_elements.contains t = true
      · rw [if_pos hcont] at hns ⊢
        have ihlt := ih t
        unfold runFeed at ihlt
        rw [ihlt hns]
        simp only [containsDisallowedTag, List.any_cons]
        rw [hcont]
        simp
      · rw [if_neg hcont] at hns ⊢
        rw [Bool.not_eq_true] at hcont
        simp only [containsDisallowedTag, List.any_cons, isDisallowedElementError]
        rw [hcont]
        simp
    | startendtag t =>
      simp only [feedEvent] at hns ⊢
      by_cases hcont : allowed_elements.contains t = true
      · rw [if_pos hcont] at hns ⊢
        have ihlt := ih t
        unfold runFeed at ihlt
        rw [ihlt hns]
        simp only [containsDisallowedTag, List.any_cons]
        rw [hcont]
        simp
      · rw [if_neg hcont] at hns ⊢
        rw [Bool.not_eq_true] at hcont
        simp only [containsDisallowedTag, List.any_cons, isDisallowedElementError]
        rw [hcont]
        simp
    | endtag t =>
      simp only [feedEvent] at hns ⊢
      have ihlt := ih lasttag
      unfold runFeed at ihlt
      rw [ihlt hns]
      simp only [containsDisallowedTag, List.any_cons]
      simp
    | data s =>
      simp only [feedEvent] at hns ⊢
      by_cases hstyle : lasttag = "style"
      · rw [if_pos hstyle] at hns ⊢
        cases hv : validate_css cssParse s with
        | error e2 =>
          rw [hv] at hns
          dsimp only at hns ⊢
          obtain ⟨msg, rfl⟩ := validate_css_error_is_style hv
          simp [isDisallowedStyleError] at hns
        | ok u =>
          rw [hv] at hns
          dsimp only at hns ⊢
          have ihlt := ih lasttag
          unfold runFeed at ihlt
          rw [ihlt hns]
          simp only [containsDisallowedTag, List.any_cons]
          simp
      · rw [if_neg hstyle] at hns ⊢
        have ihlt := ih lasttag
        unfold runFeed at ihlt
        rw [ihlt hns]
        simp only [containsDisallowedTag, List.any_cons]
        simp

/-- **C10 counterexample.**  A fragment whose `<style>` data fails the
CSS filter and which also contains a disallowed `<script>` tag raises
`DisallowedStyle`, not `DisallowedElement`: the claimed "`DisallowedElement`
is raised iff a disallowed tag occurs" is false in the only-if-missed
direction because the style error preempts it. -/
theorem allowed_elements_parser_counterexample :
    containsDisallowedTag
      [HtmlEvent.starttag ("style"), HtmlEvent.data (".bad \x7b color: red \x7d"),
       HtmlEvent.starttag ("script")] = true ∧
    reset_and_feed cssParseDemo
      [HtmlEvent.starttag ("style"), HtmlEvent.data (".bad \x7b color: red \x7d"),
       HtmlEvent.starttag ("script")] =
      .error (.disallowedStyle DisallowedStyle_OUT_OF_SCOPE) ∧
    isDisallowedElementError (reset_and_feed cssParseDemo
      [HtmlEvent.starttag ("style"), HtmlEvent.data (".bad \x7b color: red \x7d"),
       HtmlEvent.starttag ("script")]) = false :=
  ⟨by decide, by rfl, by rfl⟩

/-- **C10, amended.**  The trust-boundary filter raises at the first
offense: (a) if no style validation error occurs, `DisallowedElement`
is raised iff the fragment contains a start or self-closing tag outside
the allow-set; (b) for style data, `DisallowedStyle` is raised iff the
CSS fails to parse or some parsed rule has a selector that does not
begin with `".dataframe "`; (c) the bare selector `.dataframe` is
rejected while (d) a stylesheet with zero rules is accepted. -/
theorem allowed_elements_parser_correct :
    (∀ (cssParse : String → Except Unit (List (List String)))
        (events : List HtmlEvent),
      isDisallowedStyleError (reset_and_feed cssParse events) = false →
      isDisallowedElementError (reset_and_feed cssParse events) =
        containsDisallowedTag events) ∧
    (∀ (cssParse : String → Except Unit (List (List String))) (d : String),
      isDisallowedStyleError (validate_css cssParse d) = cssOffends (cssParse d)) ∧
    allow_selector (".dataframe") = false ∧
    validate_css cssParseDemo (".dataframe \x7b color: red \x7d") =
      .error (.disallowedStyle DisallowedStyle_OUT_OF_SCOPE) ∧
    validate_css cssParseDemo "" = .ok () ∧
    validate_css cssParseDemo (".dataframe td \x7b color: red \x7d") = .ok () := by
  refine ⟨?_, validate_css_eq_cssOffends, by decide, by rfl, by rfl, by rfl⟩
  intro cssParse events hns
  exact runFeed_element_iff cssParse events ("???") hns

theorem listingStep_lenient (env : Option String) (extra : List String)
    (c : CourseEntity) (hl : raise_errors_from_forks env = false)
    (hw : infoWellBehaved c = true) :
    listingStep env extra c = .ok (lenientKeep extra c) := by
  unfold listingStep lenientKeep
  by_cases hlink : c.is_link = false
  · rw [if_pos hlink, hlink]
    rfl
  · rw [if_neg hlink]
    rw [Bool.not_eq_false] at hlink
    rw [hlink]
    unfold does_course_return_info
    unfold infoWellBehaved at hw
    cases hinfo : c.info with
    | error e =>
      rw [hinfo] at hw
      dsimp only at hw ⊢
      simp [hw, hl, infoHasKeys]
    | ok iv =>
      dsimp only
      by_cases hkeys : infoHasKeys (.ok iv) (("title") :: ("description") :: extra) = true
      · simp [hkeys]
      · simp [hkeys, hl]

theorem safeListing_lenient (env : Option String) (extra : List String)
    (cs : List CourseEntity) (hl : raise_errors_from_forks env = false)
    (hw : ∀ c ∈ cs, infoWellBehaved c = true) :
    safeListing env extra cs = .ok (cs.filter (lenientKeep extra)) := by
  induction cs with
  | nil => rfl
  | cons c cs ih =>
    rw [safeListing]
    rw [listingStep_lenient env extra c hl (hw c (List.mem_cons_self c cs))]
    rw [ih (fun c2 h2 => hw c2 (List.mem_cons_of_mem c h2))]
    rw [List.filter_cons]

theorem listingStep_strict_exn (env : Option String) (extra : List String)
    (c : CourseEntity) (e : PyExn) (hs : raise_errors_from_forks env = true)
    (hlink : c.is_link = true) (hinfo : c.info = .error e)
    (hf : forkFailure e = true) :
    listingStep env extra c = .error e := by
  simp [listingStep, does_course_return_info, hlink, hinfo, hf, hs]

theorem listingStep_pass (env : Option String) (extra : List String)
    (c : CourseEntity) (hk : lenientKeep extra c = true) :
    listingStep env extra c = .ok true := by
  unfold lenientKeep at hk
  unfold listingStep
  by_cases hlink : c.is_link = false
  · rw [if_pos hlink]
  · rw [if_neg hlink]
    rw [Bool.not_eq_false] at hlink
    rw [hlink] at hk
    simp only [Bool.not_true, Bool.false_or] at hk
    unfold does_course_return_info
    cases hinfo : c.info with
    | error e =>
      rw [hinfo] at hk
      exact absurd hk (by simp [infoHasKeys])
    | ok iv =>
      rw [hinfo] at hk
      dsimp only
      rw [if_pos hk]

theorem safeListing_strict_abort (env : Option String) (extra : List String) :
    ∀ (pre : List CourseEntity) (c : CourseEntity) (post : List CourseEntity)
      (e : PyExn),
      (∀ c2 ∈ pre, lenientKeep extra c2 = true) →
      listingStep env extra c = .error e →
      safeListing env extra (pre ++ c :: post) = .error e := by
  intro pre
  induction pre with
  | nil =>
    intro c post e _ hc
    rw [List.nil_append, safeListing, hc]
  | cons p ps ih =>
    intro c post e hpre hc
    rw [List.cons_append, safeListing]
    rw [listingStep_pass env extra p (hpre p (List.mem_cons_self p ps))]
    rw [ih c post e (fun c2 h2 => hpre c2 (List.mem_cons_of_mem p h2)) hc]

/-- **C5.**  Course/run listings under the two policy modes:
in lenient mode the listing keeps exactly the non-link courses and the
fork courses whose basic info (`title`, `description`, plus
`start_date`/`end_date` for runs) is available, so a broken fork's
title never appears while a working fork's title always appears; in
strict mode the first failing fork entry aborts the whole listing with
the original exception. -/
theorem fork_listing_modes :
    (∀ (env : Option String) (extra : List String) (cs : List CourseEntity),
      raise_errors_from_forks env = false →
      (∀ c ∈ cs, infoWellBehaved c = true) →
      safeListing env extra cs = .ok (cs.filter (lenientKeep extra))) ∧
    (∀ (env : Option String) (cs : List CourseEntity) (c : CourseEntity),
      raise_errors_from_forks env = false →
      (∀ c2 ∈ cs, infoWellBehaved c2 = true) →
      lenientKeep [] c = false →
      (∀ c2 ∈ cs, c2.title = c.title → c2 = c) →
      ∀ kept, courses_route env cs = .ok kept →
        c.title ∉ kept.map CourseEntity.title) ∧
    (∀ (env : Option String) (cs : List CourseEntity) (c : CourseEntity),
      raise_errors_from_forks env = false →
      (∀ c2 ∈ cs, infoWellBehaved c2 = true) →
      c ∈ cs → lenientKeep [] c = true →
      ∀ kept, courses_route env cs = .ok kept →
        c.title ∈ kept.map CourseEntity.title) ∧
    (∀ (env : Option String) (extra : List String) (pre : List CourseEntity)
        (c : CourseEntity) (post : List CourseEntity) (e : PyExn),
      raise_errors_from_forks env = true →
      (∀ c2 ∈ pre, lenientKeep extra c2 = true) →
      c.is_link = true → c.info = .error e → forkFailure e = true →
      safeListing env extra (pre ++ c :: post) = .error e) ∧
    (∀ (env : Option String) (years : List (Int × List CourseEntity)),
      raise_errors_from_forks env = false →
      (∀ p ∈ years, ∀ c ∈ Prod.snd p, infoWellBehaved c = true) →
      runs_route env years = .ok (years.map (fun p =>
        (p.1, p.2.filter (lenientKeep (["start_date", "end_date"])))))) := by
  refine ⟨safeListing_lenient, ?_, ?_, ?_, ?_⟩
  · intro env cs c hl hw hkeep hinj kept hroute
    unfold courses_route at hroute
    rw [safeListing_lenient env [] cs hl hw] at hroute
    have hkept : kept = cs.filter (lenientKeep []) := (Except.ok.inj hroute).symm
    subst hkept
    intro hmem
    rw [List.mem_map] at hmem
    obtain ⟨c2, hc2mem, htitle⟩ := hmem
    have h2 := List.mem_filter.mp hc2mem
    have hc2c : c2 = c := hinj c2 h2.1 htitle
    rw [hc2c] at h2
    rw [hkeep] at h2
    exact Bool.false_ne_true h2.2
  · intro env cs c hl hw hcmem hkeep kept hroute
    unfold courses_route at hroute
    rw [safeListing_lenient env [] cs hl hw] at hroute
    have hkept : kept = cs.filter (lenientKeep []) := (Except.ok.inj hroute).symm
    subst hkept
    rw [List.mem_map]
    exact ⟨c, List.mem_filter.mpr ⟨hcmem, hkeep⟩, rfl⟩
  · intro env extra pre c post e hs hpre hlink hinfo hf
    exact safeListing_strict_abort env extra pre c post e hpre
      (listingStep_strict_exn env extra c e hs hlink hinfo hf)
  · intro env years hl hw
    induction years with
    | nil => rfl
    | cons p years ih =>
      obtain ⟨y, rs⟩ := p
      rw [runs_route]
      rw [safeListing_lenient env (["start_date", "end_date"]) rs hl
        (hw (y, rs) (List.mem_cons_self _ _))]
      rw [ih (fun p2 h2 => hw p2 (List.mem_cons_of_mem _ h2))]
      rfl

/-- Witness for C5: one working fork and one broken fork; in lenient
mode the broken title is excluded and the working title kept, in strict
mode the `BuildError` aborts the listing. -/
theorem fork_listing_modes_witness :
    (raise_errors_from_forks none = false ∧
      (("Broken course title") : String) ∉
        (List.map CourseEntity.title
          [⟨("course/ok"), ("Course title"), true,
            .ok (.dict [(("title"), ("T")), (("description"), ("D"))])⟩])) ∧
    courses_route none
      [⟨("course/ok"), ("Course title"), true,
        .ok (.dict [(("title"), ("T")), (("description"), ("D"))])⟩,
       ⟨("course/broken"), ("Broken course title"), true, .error .buildError⟩] =
      .ok [⟨("course/ok"), ("Course title"), true,
        .ok (.dict [(("title"), ("T")), (("description"), ("D"))])⟩] ∧
    (("Course title") : String) ∈
      (List.map CourseEntity.title
        [⟨("course/ok"), ("Course title"), true,
          .ok (.dict [(("title"), ("T")), (("description"), ("D"))])⟩]) ∧
    raise_errors_from_forks (some ("true")) = true ∧
    safeListing (some ("true")) []
      [⟨("course/ok"), ("Course title"), true,
        .ok (.dict [(("title"), ("T")), (("description"), ("D"))])⟩,
       ⟨("course/broken"), ("Broken course title"), true, .error .buildError⟩] =
      .error .buildError := by
  refine ⟨⟨by decide, ?_⟩, ?_, ?_, by decide, ?_⟩
  · exact fork_listing_modes.2.1 none
      [⟨("course/ok"), ("Course title"), true,
        .ok (.dict [(("title"), ("T")), (("description"), ("D"))])⟩,
       ⟨("course/broken"), ("Broken course title"), true, .error .buildError⟩]
      ⟨("course/broken"), ("Broken course title"), true, .error .buildError⟩
      (by decide) (by decide) (by decide) (by decide)
      [⟨("course/ok"), ("Course title"), true,
        .ok (.dict [(("title"), ("T")), (("description"), ("D"))])⟩]
      (by decide)
  · exact (fork_listing_modes.1 none []
      [⟨("course/ok"), ("Course title"), true,
        .ok (.dict [(("title"), ("T")), (("description"), ("D"))])⟩,
       ⟨("course/broken"), ("Broken course title"), true, .error .buildError⟩]
      (by decide) (by decide)).trans (by decide)
  · exact fork_listing_modes.2.2.1 none
      [⟨("course/ok"), ("Course title"), true,
        .ok (.dict [(("title"), ("T")), (("description"), ("D"))])⟩,
       ⟨("course/broken"), ("Broken course title"), true, .error .buildError⟩]
      ⟨("course/ok"), ("Course title"), true,
        .ok (.dict [(("title"), ("T")), (("description"), ("D"))])⟩
      (by decide) (by decide) (by decide) (by decide)
      [⟨("course/ok"), ("Course title"), true,
        .ok (.dict [(("title"), ("T")), (("description"), ("D"))])⟩]
      (by decide)
  · exact fork_listing_modes.2.2.2.1 (some ("true")) []
      [⟨("course/ok"), ("Course title"), true,
        .ok (.dict [(("title"), ("T")), (("description"), ("D"))])⟩]
      ⟨("course/broken"), ("Broken course title"), true, .error .buildError⟩
      [] .buildError (by decide) (by decide) (by decide) (by decide) (by decide)

theorem clp_handler_trace (st : ResolverState) (req : CourseLinkRequest)
    (tr : List CacheOp) : (clp_handler st req tr).trace = tr := by
  unfold clp_handler
  by_cases h : req.lessonExists = true
  · rw [if_pos h]
    cases req.canonicalRender <;> rfl
  · rw [if_neg h]

/-- **C1 counterexample.**  A delegated request with a dirty working
copy still performs a cache `get` (and a `set`): `course_link_page`
never consults `arca.is_dirty()`. -/
theorem dirty_bypass_counterexample :
    (ResolverState.mk true [] []).is_dirty = true ∧
    CacheOp.get ("K") ∈
      (course_link_page (ResolverState.mk true [] [])
        (CourseLinkRequest.mk false (.ok ()) ("K") (.error ()))
        (fun _ => .ok (ForkPageData.mk (some ("c")) [] false))).trace ∧
    CacheOp.set ("K") (Artifact.mk ("c") []) ∈
      (course_link_page (ResolverState.mk true [] [])
        (CourseLinkRequest.mk false (.ok ()) ("K") (.error ()))
        (fun _ => .ok (ForkPageData.mk (some ("c")) [] false))).trace := by
  refine ⟨rfl, ?_, ?_⟩ <;> decide

/-- **C1, amended.**  With a dirty working copy the canonical path
`render_page` performs no cache operation and recomputes the content;
the delegated path `course_link_page`, however, begins with a cache
`get` whenever its `try` block is reached, regardless of dirtiness. -/
theorem dirty_bypass_amended :
    (∀ (st : ResolverState) (key html : String),
      st.is_dirty = true →
      render_page st key html =
        ⟨.str html, st, []⟩) ∧
    (∀ (st : ResolverState) (req : CourseLinkRequest)
        (forkCall : Option String → Except PyExn ForkPageData),
      req.varsOk = .ok () →
      (course_link_page st req forkCall).trace.head? =
        some (.get req.content_key)) := by
  constructor
  · intro st key html hd
    unfold render_page
    rw [hd]
    rfl
  · intro st req forkCall hv
    unfold course_link_page
    rw [hv]
    dsimp only
    cases hf : forkCall (match region_lookup st.cache req.content_key with
      | some _ => some req.content_key
      | none => none) with
    | error e =>
      dsimp only
      by_cases hpe : possible_fork_exception e = true
      · rw [if_pos hpe, clp_handler_trace]
        rfl
      · rw [if_neg hpe]
        rfl
    | ok data =>
      dsimp only
      cases hdc : data.content with
      | none =>
        dsimp only
        cases ho : region_lookup st.cache req.content_key with
        | none => rfl
        | some a =>
          dsimp only
          by_cases hb : data.pageCssBad = true
          · rw [if_pos hb, clp_handler_trace]
            rfl
          · rw [if_neg hb]
            rfl
      | some c =>
        dsimp only
        by_cases hb : data.pageCssBad = true
        · rw [if_pos hb, clp_handler_trace]
          rfl
        · rw [if_neg hb]
          rfl

/-- Witness for the amended C1. -/
theorem dirty_bypass_amended_witness :
    (ResolverState.mk true [(("K"), Artifact.mk ("old") [])] []).is_dirty = true ∧
    render_page (ResolverState.mk true [(("K"), Artifact.mk ("old") [])] [])
        ("K") ("fresh") =
      ⟨.str ("fresh"), ResolverState.mk true [(("K"), Artifact.mk ("old") [])] [], []⟩ ∧
    (course_link_page (ResolverState.mk true [] [])
      (CourseLinkRequest.mk false (.ok ()) ("K") (.error ()))
      (fun _ => .error .buildError)).trace.head? = some (.get ("K")) :=
  ⟨rfl,
    dirty_bypass_amended.1 (ResolverState.mk true [(("K"), Artifact.mk ("old") [])] [])
      ("K") ("fresh") rfl,
    dirty_bypass_amended.2 (ResolverState.mk true [] [])
      (CourseLinkRequest.mk false (.ok ()) ("K") (.error ()))
      (fun _ => .error .buildError) rfl⟩

/-- **C4** (code bug).  `course_link_page` catches `BuildError`
unconditionally: when the sandbox call fails and the lesson exists
canonically it renders the canonical page with `error_in_fork=True` and
never re-raises — the `RAISE_FORK_ERRORS` strict mode
(`raise_errors_from_forks`) is simply never consulted on this path, so
in strict mode the claimed re-raise does not happen either. -/
theorem build_failure_fallback :
    ∀ (env : Option String) (st : ResolverState) (req : CourseLinkRequest)
      (forkCall : Option String → Except PyExn ForkPageData) (page : String),
      raise_errors_from_forks env = true →
      req.varsOk = .ok () →
      (∀ o, forkCall o = .error .buildError) →
      req.lessonExists = true →
      req.canonicalRender = .ok page →
      (course_link_page st req forkCall).outcome =
        .canonicalFallback true page := by
  intro env st req forkCall page _ hv hf hles hcan
  unfold course_link_page
  rw [hv]
  dsimp only
  rw [hf]
  dsimp only
  rw [if_pos (show possible_fork_exception PyExn.buildError = true from rfl)]
  unfold clp_handler
  rw [if_pos hles, hcan]

/-- Witness for C4: concrete strict-mode scenario. -/
theorem build_failure_fallback_witness :
    raise_errors_from_forks (some ("true")) = true ∧
    (course_link_page (ResolverState.mk false [] [])
      (CourseLinkRequest.mk true (.ok ()) ("K") (.ok ("canonical page")))
      (fun _ => .error .buildError)).outcome =
      .canonicalFallback true ("canonical page") :=
  ⟨by decide,
    build_failure_fallback (some ("true")) (ResolverState.mk false [] [])
      (CourseLinkRequest.mk true (.ok ()) ("K") (.ok ("canonical page")))
      (fun _ => .error .buildError) ("canonical page")
      (by decide) rfl (fun o => rfl) rfl rfl⟩

/-- **C3** (code bug).  The resolver half of the content-offer protocol
behaves as claimed: a null content body makes the resolver serve its
own cached artifact unchanged without a cache write, and fresh content
is stored under the resolver's key; the dead-code offer logic of the
fork would honor a matching key; but the actual fork-side
`render("course_page", ...)` raises `ValueError("Test exceptions")`
before any of it, so the sandbox can never emit the use-offer
sentinel. -/
theorem content_offer_protocol :
    (∀ (st : ResolverState) (req : CourseLinkRequest)
        (forkCall : Option String → Except PyExn ForkPageData)
        (a : Artifact) (us : List String),
      req.varsOk = .ok () →
      region_lookup st.cache req.content_key = some a →
      forkCall (some req.content_key) = .ok (ForkPageData.mk none us false) →
      course_link_page st req forkCall =
        ⟨.lessonLink a.content,
          { st with urls_from_forks := st.urls_from_forks ++ a.urls },
          [.get req.content_key]⟩) ∧
    (∀ (st : ResolverState) (req : CourseLinkRequest)
        (forkCall : Option String → Except PyExn ForkPageData)
        (c : String) (us : List String),
      req.varsOk = .ok () →
      (∀ o, forkCall o = .ok (ForkPageData.mk (some c) us false)) →
      (course_link_page st req forkCall).state.cache =
        region_set st.cache req.content_key (Artifact.mk c us) ∧
      (course_link_page st req forkCall).outcome = .lessonLink c) ∧
    (∀ (k : String) (rendered : Artifact),
      fork_course_page_offer (some k) k rendered = (none, [])) ∧
    (∀ (k k2 : String) (rendered : Artifact), k ≠ k2 →
      fork_course_page_offer (some k) k2 rendered =
        (some rendered.content, rendered.urls)) ∧
    fork_render ("course_page") false =
      .error (.valueError ("Test exceptions")) := by
  refine ⟨?_, ?_, ?_, ?_, by rfl⟩
  · intro st req forkCall a us hv ho hf
    unfold course_link_page
    rw [hv]
    dsimp only
    rw [ho]
    dsimp only
    rw [hf]
    rfl
  · intro st req forkCall c us hv hf
    unfold course_link_page
    rw [hv]
    dsimp only
    rw [hf]
    dsimp only
    cases region_lookup st.cache req.content_key <;> exact ⟨rfl, rfl⟩
  · intro k rendered
    unfold fork_course_page_offer
    dsimp only
    rw [if_pos rfl]
  · intro k k2 rendered hne
    unfold fork_course_page_offer
    dsimp only
    rw [if_neg hne]

/-- Witness for C3: concrete offer hit. -/
theorem content_offer_protocol_witness :
    region_lookup [(("K"), Artifact.mk ("cached") [("u1")])] ("K") =
      some (Artifact.mk ("cached") [("u1")]) ∧
    course_link_page
        (ResolverState.mk false [(("K"), Artifact.mk ("cached") [("u1")])] [])
        (CourseLinkRequest.mk true (.ok ()) ("K") (.ok ("p")))
        (fun _ => .ok (ForkPageData.mk none [] false)) =
      ⟨.lessonLink ("cached"),
        ResolverState.mk false [(("K"), Artifact.mk ("cached") [("u1")])] [("u1")],
        [.get ("K")]⟩ :=
  ⟨by decide,
    content_offer_protocol.1
      (ResolverState.mk false [(("K"), Artifact.mk ("cached") [("u1")])] [])
      (CourseLinkRequest.mk true (.ok ()) ("K") (.ok ("p")))
      (fun _ => .ok (ForkPageData.mk none [] false))
      (Artifact.mk ("cached") [("u1")]) [] rfl (by decide) rfl⟩

theorem region_lookup_set (c : Cache) (k : String) (a : Artifact) (k2 : String) :
    region_lookup (region_set c k a) k2 =
      if k2 = k then some a else region_lookup c k2 := by
  unfold region_lookup region_set
  by_cases h : k2 = k
  · subst h
    simp [List.find?_cons]
  · simp only [List.find?_cons]
    have : (k == k2) = false := by
      rw [beq_eq_false_iff_ne]
      exact fun hc => h hc.symm
    rw [this]
    rw [if_neg h]

theorem cacheRespects_set (producer : String → Artifact) (c : Cache)
    (k : String) (a : Artifact) (hres : cacheRespects producer c)
    (ha : a = producer k) : cacheRespects producer (region_set c k a) := by
  intro k2 a2 h2
  rw [region_lookup_set] at h2
  by_cases h : k2 = k
  · rw [if_pos h] at h2
    rw [← Option.some.inj h2, ha, h]
  · rw [if_neg h] at h2
    exact hres k2 a2 h2

theorem cacheRespects_goc (producer : String → Artifact) (c : Cache)
    (k : String) (v : Artifact) (hres : cacheRespects producer c)
    (hv : v = producer k) :
    cacheRespects producer (region_get_or_create c k v).2 := by
  unfold region_get_or_create
  cases h : region_lookup c k with
  | some a => exact hres
  | none => exact cacheRespects_set producer c k v hres hv

theorem replayCache_append (c : Cache) (t1 t2 : List CacheOp) :
    replayCache c (t1 ++ t2) = replayCache (replayCache c t1) t2 := by
  induction t1 generalizing c with
  | nil => rfl
  | cons op t ih =>
    cases op with
    | get k => rw [List.cons_append, replayCache, replayCache, ih]
    | getOrCreate k v => rw [List.cons_append, replayCache, replayCache, ih]
    | set k v => rw [List.cons_append, replayCache, replayCache, ih]

theorem overwriteViolation_append (c : Cache) (t1 t2 : List CacheOp) :
    overwriteViolation c (t1 ++ t2) =
      (overwriteViolation c t1 || overwriteViolation (replayCache c t1) t2) := by
  induction t1 generalizing c with
  | nil => rw [List.nil_append, overwriteViolation, replayCache, Bool.false_or]
  | cons op t ih =>
    cases op with
    | get k =>
      rw [List.cons_append, overwriteViolation, overwriteViolation, replayCache, ih]
    | getOrCreate k v =>
      rw [List.cons_append, overwriteViolation, overwriteViolation, replayCache, ih]
    | set k v =>
      rw [List.cons_append, overwriteViolation, overwriteViolation, replayCache]
      cases h : region_lookup c k with
      | some a =>
        dsimp only
        by_cases hav : a ≠ v
        · rw [if_pos hav, if_pos hav]
          rfl
        · rw [if_neg hav, if_neg hav, ih]
      | none =>
        dsimp only
        rw [ih]

theorem render_page_step (producer : String → Artifact) (st : ResolverState)
    (key html : String) (hres : cacheRespects producer st.cache)
    (hv : Artifact.mk html [] = producer key) :
    overwriteViolation st.cache (render_page st key html).trace = false ∧
    replayCache st.cache (render_page st key html).trace =
      (render_page st key html).state.cache ∧
    cacheRespects producer (render_page st key html).state.cache := by
  unfold render_page
  by_cases hd : st.is_dirty = false
  · rw [if_pos hd]
    exact ⟨rfl, rfl, cacheRespects_goc producer st.cache key _ hres hv⟩
  · rw [if_neg hd]
    exact ⟨rfl, rfl, hres⟩

theorem course_link_page_step (producer : String → Artifact)
    (st : ResolverState) (req : CourseLinkRequest)
    (forkCall : Option String → Except PyExn ForkPageData)
    (hres : cacheRespects producer st.cache)
    (hreq : requestRespects producer (.delegated req forkCall)) :
    overwriteViolation st.cache (course_link_page st req forkCall).trace = false ∧
    replayCache st.cache (course_link_page st req forkCall).trace =
      (course_link_page st req forkCall).state.cache ∧
    cacheRespects producer (course_link_page st req forkCall).state.cache := by
  unfold requestRespects at hreq
  unfold course_link_page
  cases hv : req.varsOk with
  | error e =>
    dsimp only
    by_cases hpe : possible_fork_exception e = true
    · rw [if_pos hpe]
      unfold clp_handler
      by_cases hl : req.lessonExists = true
      · rw [if_pos hl]
        cases req.canonicalRender <;> exact ⟨rfl, rfl, hres⟩
      · rw [if_neg hl]
        exact ⟨rfl, rfl, hres⟩
    · rw [if_neg hpe]
      exact ⟨rfl, rfl, hres⟩
  | ok u =>
    dsimp only
    cases hf : forkCall (match region_lookup st.cache req.content_key with
      | some _ => some req.content_key
      | none => none) with
    | error e =>
      dsimp only
      by_cases hpe : possible_fork_exception e = true
      · rw [if_pos hpe]
        unfold clp_handler
        by_cases hl : req.lessonExists = true
        · rw [if_pos hl]
          cases req.canonicalRender <;> exact ⟨rfl, rfl, hres⟩
        · rw [if_neg hl]
          exact ⟨rfl, rfl, hres⟩
      · rw [if_neg hpe]
        exact ⟨rfl, rfl, hres⟩
    | ok data =>
      dsimp only
      cases hdc : data.content with
      | none =>
        dsimp only
        cases ho : region_lookup st.cache req.content_key with
        | none => exact ⟨rfl, rfl, hres⟩
        | some a =>
          dsimp only
          by_cases hb : data.pageCssBad = true
          · rw [if_pos hb]
            unfold clp_handler
            by_cases hl : req.lessonExists = true
            · rw [if_pos hl]
              cases req.canonicalRender <;> exact ⟨rfl, rfl, hres⟩
            · rw [if_neg hl]
              exact ⟨rfl, rfl, hres⟩
          · rw [if_neg hb]
            exact ⟨rfl, rfl, hres⟩
      | some c =>
        dsimp only
        have hprod : Artifact.mk c data.urls = producer req.content_key :=
          hreq _ data hf c hdc
        have hviol : overwriteViolation st.cache
            [CacheOp.get req.content_key,
             CacheOp.set req.content_key (Artifact.mk c data.urls)] = false := by
          rw [overwriteViolation, overwriteViolation]
          cases ho : region_lookup st.cache req.content_key with
          | none => rfl
          | some a =>
            dsimp only
            have ha : a = Artifact.mk c data.urls := by
              rw [hres req.content_key a ho, hprod]
            rw [if_neg (by rw [ha]; exact fun hc => hc rfl)]
            rfl
        have hrespects : cacheRespects producer
            (region_set st.cache req.content_key (Artifact.mk c data.urls)) :=
          cacheRespects_set producer st.cache req.content_key _ hres hprod
        by_cases hb : data.pageCssBad = true
        · rw [if_pos hb]
          unfold clp_handler
          by_cases hl : req.lessonExists = true
          · rw [if_pos hl]
            cases req.canonicalRender <;> exact ⟨hviol, rfl, hrespects⟩
          · rw [if_neg hl]
            exact ⟨hviol, rfl, hrespects⟩
        · rw [if_neg hb]
          exact ⟨hviol, rfl, hrespects⟩

/-- **C8 counterexample.**  Two delegated requests for the same cache
key, where the fork declines the offer and returns different fresh
content the second time (nothing in the resolver forbids this), make
the resolver's `arca.region.set` overwrite the stored artifact `A`
with a different artifact `B`. -/
theorem cache_overwrite_counterexample :
    overwriteViolation []
      (run_requests (ResolverState.mk false [] [])
        [.delegated (CourseLinkRequest.mk false (.ok ()) ("K") (.error ()))
          (fun _ => .ok (ForkPageData.mk (some ("A")) [] false)),
         .delegated (CourseLinkRequest.mk false (.ok ()) ("K") (.error ()))
          (fun _ => .ok (ForkPageData.mk (some ("B")) [] false))]).2 = true ∧
    region_lookup
      (run_requests (ResolverState.mk false [] [])
        [.delegated (CourseLinkRequest.mk false (.ok ()) ("K") (.error ()))
          (fun _ => .ok (ForkPageData.mk (some ("A")) [] false))]).1.cache ("K") =
      some (Artifact.mk ("A") []) ∧
    region_lookup
      (run_requests (ResolverState.mk false [] [])
        [.delegated (CourseLinkRequest.mk false (.ok ()) ("K") (.error ()))
          (fun _ => .ok (ForkPageData.mk (some ("A")) [] false)),
         .delegated (CourseLinkRequest.mk false (.ok ()) ("K") (.error ()))
          (fun _ => .ok (ForkPageData.mk (some ("B")) [] false))]).1.cache ("K") =
      some (Artifact.mk ("B") []) := by
  refine ⟨?_, ?_, ?_⟩ <;> rfl

/-- **C8, amended.**  Under the spec's own deterministic-producer
assumption — every value a request can write for a given key is the one
fixed artifact of that key — no resolver operation overwrites an
existing cache entry with different content, over every request
sequence. -/
theorem cache_write_once_amended :
    ∀ (producer : String → Artifact) (rs : List PageRequest)
      (st : ResolverState),
      cacheRespects producer st.cache →
      (∀ r ∈ rs, requestRespects producer r) →
      overwriteViolation st.cache (run_requests st rs).2 = false ∧
      cacheRespects producer (run_requests st rs).1.cache := by
  intro producer rs
  induction rs with
  | nil =>
    intro st hres _
    exact ⟨rfl, hres⟩
  | cons r rs ih =>
    intro st hres hall
    rw [run_requests.eq_def]
    cases r with
    | canonical key html =>
      have hstep := render_page_step producer st key html hres
        (hall _ (List.mem_cons_self _ _))
      dsimp only
      rw [overwriteViolation_append, hstep.2.1]
      have hrest := ih (render_page st key html).state hstep.2.2
        (fun r2 h2 => hall r2 (List.mem_cons_of_mem _ h2))
      rw [hstep.1, hrest.1]
      exact ⟨rfl, hrest.2⟩
    | delegated req forkCall =>
      have hstep := course_link_page_step producer st req forkCall hres
        (hall _ (List.mem_cons_self _ _))
      dsimp only
      rw [overwriteViolation_append, hstep.2.1]
      have hrest := ih (course_link_page st req forkCall).state hstep.2.2
        (fun r2 h2 => hall r2 (List.mem_cons_of_mem _ h2))
      rw [hstep.1, hrest.1]
      exact ⟨rfl, hrest.2⟩

/-- Witness for the amended C8: a deterministic fork re-asked for the
same key writes the identical artifact, no violation. -/
theorem cache_write_once_amended_witness :
    overwriteViolation []
      (run_requests (ResolverState.mk false [] [])
        [.delegated (CourseLinkRequest.mk false (.ok ()) ("K") (.error ()))
          (fun _ => .ok (ForkPageData.mk (some ("A")) [] false)),
         .delegated (CourseLinkRequest.mk false (.ok ()) ("K") (.error ()))
          (fun _ => .ok (ForkPageData.mk (some ("A")) [] false))]).2 = false := by
  have h := cache_write_once_amended (fun _ => Artifact.mk ("A") [])
    [.delegated (CourseLinkRequest.mk false (.ok ()) ("K") (.error ()))
      (fun _ => .ok (ForkPageData.mk (some ("A")) [] false)),
     .delegated (CourseLinkRequest.mk false (.ok ()) ("K") (.error ()))
      (fun _ => .ok (ForkPageData.mk (some ("A")) [] false))]
    (ResolverState.mk false [] [])
    (fun k a ha => by exact absurd ha (by simp [region_lookup]))
    (by
      intro r hr
      have hcases := List.mem_cons.mp hr
      rcases hcases with rfl | hr2
      · intro o data hdata c hc
        have hd : ForkPageData.mk (some ("A")) [] false = data :=
          Except.ok.inj hdata
        rw [← hd] at hc
        have hca : (("A") : String) = c := Option.some.inj hc
        rw [← hd, ← hca]
      · have hcases2 := List.mem_cons.mp hr2
        rcases hcases2 with rfl | hr3
        · intro o data hdata c hc
          have hd : ForkPageData.mk (some ("A")) [] false = data :=
            Except.ok.inj hdata
          rw [← hd] at hc
          have hca : (("A") : String) = c := Option.some.inj hc
          rw [← hd, ← hca]
        · exact absurd hr3 (List.not_mem_nil _))
  exact h.1

theorem written_card_lt (U : Finset String) (written : List String)
    (u : String) (hu : u ∈ U) (hw : u ∉ written) :
    (U.filter (fun x => x ∉ u :: written)).card + 1 ≤
      (U.filter (fun x => x ∉ written)).card := by
  have hsub : U.filter (fun x => x ∉ u :: written) ⊆
      U.filter (fun x => x ∉ written) := by
    intro x hx
    rw [Finset.mem_filter] at hx ⊢
    refine ⟨hx.1, ?_⟩
    intro hc
    exact hx.2 (List.mem_cons_of_mem u hc)
  have hmem : u ∈ U.filter (fun x => x ∉ written) :=
    Finset.mem_filter.mpr ⟨hu, hw⟩
  have hnmem : u ∉ U.filter (fun x => x ∉ u :: written) := by
    intro hc
    exact (Finset.mem_filter.mp hc).2 (List.mem_cons_self u written)
  have hss : U.filter (fun x => x ∉ u :: written) ⊂
      U.filter (fun x => x ∉ written) :=
    ⟨hsub, fun hsup => hnmem (hsup hmem)⟩
  exact Nat.succ_le_of_lt (Finset.card_lt_card hss)

theorem build_one_step (U : Finset String) (B : Nat)
    (pages : String → PageEffect) (s : CrawlState) (u : String)
    (hp : pagesBounded U B pages) (hI : crawlInv U s) (hu : u ∈ U) :
    crawlInv U (build_one true pages s u) ∧
    crawlMeasure U B (build_one true pages s u) ≤ crawlMeasure U B s := by
  unfold build_one
  by_cases hw : u ∈ s.written
  · rw [if_pos ⟨rfl, hw⟩]
    exact ⟨hI, le_rfl⟩
  · rw [if_neg (fun hc => hw hc.2)]
    rw [if_neg hw]
    obtain ⟨hr, hl, hb⟩ := hp u hu
    constructor
    · constructor
      · intro v hv
        rcases List.mem_append.mp hv with h | h
        · exact hI.1 v h
        · exact hr v h
      · intro v hv
        rcases List.mem_append.mp hv with h | h
        · exact hI.2 v h
        · exact hl v h
    · unfold crawlMeasure
      dsimp only
      have hcard := written_card_lt U s.written u hu hw
      rw [List.length_append, List.length_append]
      set c2 := (U.filter (fun x => x ∉ u :: s.written)).card with hc2
      set c1 := (U.filter (fun x => x ∉ s.written)).card with hc1
      have hmul : (c2 + 1) * (B + 1) ≤ c1 * (B + 1) :=
        Nat.mul_le_mul_right (B + 1) hcard
      have hexp : c2 * (B + 1) + B + 1 = (c2 + 1) * (B + 1) := by ring
      omega

theorem crawl_iter_decreases (U : Finset String) (B : Nat)
    (pages : String → PageEffect) (s : CrawlState)
    (hp : pagesBounded U B pages) (hI : crawlInv U s)
    (hnd : crawlDone s = false) :
    crawlInv U (crawl_iter true pages s) ∧
    crawlMeasure U B (crawl_iter true pages s) < crawlMeasure U B s := by
  unfold crawl_iter
  cases hroute : s.routeQ with
  | nil =>
    dsimp only
    cases hlink : s.linkQ with
    | nil =>
      exfalso
      unfold crawlDone at hnd
      rw [hroute, hlink] at hnd
      simp at hnd
    | cons u rest =>
      dsimp only
      have hu : u ∈ U := hI.2 u (by rw [hlink]; exact List.mem_cons_self u rest)
      have hI2 : crawlInv U { s with linkQ := rest } := by
        refine ⟨hI.1, fun v hv => hI.2 v ?_⟩
        rw [hlink]
        exact List.mem_cons_of_mem u hv
      have hstep := build_one_step U B pages { s with linkQ := rest } u hp hI2 hu
      refine ⟨hstep.1, lt_of_le_of_lt hstep.2 ?_⟩
      unfold crawlMeasure
      dsimp only
      rw [hlink]
      simp

  | cons u rest =>
    dsimp only
    have hu : u ∈ U := hI.1 u (by rw [hroute]; exact List.mem_cons_self u rest)
    have hI2 : crawlInv U { s with routeQ := rest } := by
      refine ⟨fun v hv => hI.1 v ?_, hI.2⟩
      rw [hroute]
      exact List.mem_cons_of_mem u hv
    have hstep := build_one_step U B pages { s with routeQ := rest } u hp hI2 hu
    have hless : crawlMeasure U B { s with routeQ := rest } < crawlMeasure U B s := by
      unfold crawlMeasure
      dsimp only
      rw [hroute]
      simp
    set s1 := build_one true pages { s with routeQ := rest } u with hs1
    cases hlink : s1.linkQ with
    | nil =>
      exact ⟨hstep.1, lt_of_le_of_lt hstep.2 hless⟩
    | cons v rest2 =>
      dsimp only
      have hv : v ∈ U := hstep.1.2 v (by rw [hlink]; exact List.mem_cons_self v rest2)
      have hI3 : crawlInv U { s1 with linkQ := rest2 } := by
        refine ⟨hstep.1.1, fun w hw => hstep.1.2 w ?_⟩
        rw [hlink]
        exact List.mem_cons_of_mem v hw
      have hstep2 := build_one_step U B pages { s1 with linkQ := rest2 } v hp hI3 hv
      refine ⟨hstep2.1, lt_of_le_of_lt hstep2.2 ?_⟩
      have hless2 : crawlMeasure U B { s1 with linkQ := rest2 } < crawlMeasure U B s1 := by
        unfold crawlMeasure
        dsimp only
        rw [hlink]
        simp
      exact lt_of_lt_of_le hless2 (le_trans hstep.2 (le_of_lt hless))

theorem crawl_terminates_of_measure (U : Finset String) (B : Nat)
    (pages : String → PageEffect) (hp : pagesBounded U B pages) :
    ∀ (k : Nat) (s : CrawlState), crawlInv U s → crawlMeasure U B s ≤ k →
      ∃ n, crawlDone (crawl_run true pages n s) = true := by
  intro k
  induction k with
  | zero =>
    intro s hI hk
    cases hd : crawlDone s with
    | true => exact ⟨0, hd⟩
    | false =>
      have := (crawl_iter_decreases U B pages s hp hI hd).2
      omega
  | succ n ih =>
    intro s hI hk
    cases hd : crawlDone s with
    | true => exact ⟨0, hd⟩
    | false =>
      have hdec := crawl_iter_decreases U B pages s hp hI hd
      obtain ⟨m, hm⟩ := ih (crawl_iter true pages s) hdec.1 (by omega)
      exact ⟨m + 1, hm⟩

/-- **C6.**  The crawler's work generator: it stops exactly when both
queues are simultaneously empty; while the route-invocation queue is
non-empty it yields its head first, and when the link queue is
non-empty after that build it yields one link in the same iteration,
so neither source is drained to exhaustion before the other; and with
skip-existing builds over a finite URL universe the crawl terminates,
even when harvested links repeat already-visited URLs. -/
theorem crawler_interleaving_and_termination :
    (∀ (skipExisting : Bool) (pages : String → PageEffect) (s : CrawlState),
      crawlDone s = true →
      crawl_iter skipExisting pages s = s ∧
      iter_calls_yields skipExisting pages s = []) ∧
    (∀ (skipExisting : Bool) (pages : String → PageEffect) (s : CrawlState),
      crawlDone s = false →
      iter_calls_yields skipExisting pages s ≠ []) ∧
    (∀ (skipExisting : Bool) (pages : String → PageEffect) (s : CrawlState)
        (u : String) (rest : List String),
      s.routeQ = u :: rest →
      (iter_calls_yields skipExisting pages s).head? = some u) ∧
    (∀ (skipExisting : Bool) (pages : String → PageEffect) (s : CrawlState)
        (u : String) (rest : List String) (v : String) (rest2 : List String),
      s.routeQ = u :: rest →
      (build_one skipExisting pages { s with routeQ := rest } u).linkQ = v :: rest2 →
      iter_calls_yields skipExisting pages s = [u, v]) ∧
    (∀ (skipExisting : Bool) (pages : String → PageEffect) (s : CrawlState)
        (u : String) (rest : List String),
      s.routeQ = [] → s.linkQ = u :: rest →
      iter_calls_yields skipExisting pages s = [u]) ∧
    (∀ (U : Finset String) (B : Nat) (pages : String → PageEffect)
        (s : CrawlState),
      pagesBounded U B pages → crawlInv U s →
      ∃ n, crawlDone (crawl_run true pages n s) = true) := by
  refine ⟨?_, ?_, ?_, ?_, ?_, ?_⟩
  · intro skipExisting pages s hd
    unfold crawlDone at hd
    rw [Bool.and_eq_true] at hd
    have hr := List.isEmpty_iff.mp hd.1
    have hl := List.isEmpty_iff.mp hd.2
    constructor
    · unfold crawl_iter
      rw [hr]
      dsimp only
      rw [hl]
    · unfold iter_calls_yields
      rw [hr]
      dsimp only
      rw [hl]
  · intro skipExisting pages s hd
    unfold crawlDone at hd
    unfold iter_calls_yields
    cases hroute : s.routeQ with
    | nil =>
      dsimp only
      cases hlink : s.linkQ with
      | nil =>
        exfalso
        rw [hroute, hlink] at hd
        simp [crawlDone] at hd
      | cons u rest => simp
    | cons u rest =>
      dsimp only
      cases (build_one skipExisting pages { s with routeQ := rest } u).linkQ with
      | nil => simp
      | cons v rest2 => simp
  · intro skipExisting pages s u rest hroute
    unfold iter_calls_yields
    rw [hroute]
    dsimp only
    cases (build_one skipExisting pages { s with routeQ := rest } u).linkQ with
    | nil => rfl
    | cons v rest2 => rfl
  · intro skipExisting pages s u rest v rest2 hroute hlink
    unfold iter_calls_yields
    rw [hroute]
    dsimp only
    rw [hlink]
  · intro skipExisting pages s u rest hroute hlink
    unfold iter_calls_yields
    rw [hroute]
    dsimp only
    rw [hlink]
  · intro U B pages s hp hI
    exact crawl_terminates_of_measure U B pages hp (crawlMeasure U B s) s hI le_rfl

/-- Witness for C6: a two-page site whose delegated pages link to each
other (repeating already-visited URLs) still reaches the
both-queues-empty state; and the head-of-route-queue yield applied
concretely. -/
theorem crawler_interleaving_and_termination_witness :
    (pagesBounded ({("/a"), ("/b")} : Finset String) 2
      (fun u => if u = ("/a") then PageEffect.mk [] [("/b"), ("/a")]
        else PageEffect.mk [] [("/a")]) ∧
      ∃ n, crawlDone (crawl_run true
        (fun u => if u = ("/a") then PageEffect.mk [] [("/b"), ("/a")]
          else PageEffect.mk [] [("/a")]) n
        (CrawlState.mk [("/a")] [] [])) = true) ∧
    (iter_calls_yields true
      (fun u => if u = ("/a") then PageEffect.mk [] [("/b"), ("/a")]
        else PageEffect.mk [] [("/a")])
      (CrawlState.mk [("/a")] [] [])).head? = some ("/a") := by
  constructor
  · constructor
    · unfold pagesBounded
      decide
    · exact crawler_interleaving_and_termination.2.2.2.2.2
        ({("/a"), ("/b")} : Finset String) 2
        (fun u => if u = ("/a") then PageEffect.mk [] [("/b"), ("/a")]
          else PageEffect.mk [] [("/a")])
        (CrawlState.mk [("/a")] [] [])
        (by unfold pagesBounded; decide)
        (by
          constructor
          · intro u hu
            rcases List.mem_cons.mp hu with rfl | h
            · decide
            · exact absurd h (List.not_mem_nil _)
          · intro u hu
            exact absurd hu (List.not_mem_nil _))
  · exact crawler_interleaving_and_termination.2.2.1 true
      (fun u => if u = ("/a") then PageEffect.mk [] [("/b"), ("/a")]
        else PageEffect.mk [] [("/a")])
      (CrawlState.mk [("/a")] [] []) ("/a") [] rfl

/-- Witness for the amended C10: a concrete fragment without style
errors where the element characterization is applied. -/
theorem allowed_elements_parser_correct_witness :
    isDisallowedStyleError (reset_and_feed cssParseDemo
      [HtmlEvent.starttag ("div"), HtmlEvent.starttag ("script")]) = false ∧
    isDisallowedElementError (reset_and_feed cssParseDemo
      [HtmlEvent.starttag ("div"), HtmlEvent.starttag ("script")]) =
      containsDisallowedTag
        [HtmlEvent.starttag ("div"), HtmlEvent.starttag ("script")] :=
  ⟨by rfl,
    allowed_elements_parser_correct.1 cssParseDemo
      [HtmlEvent.starttag ("div"), HtmlEvent.starttag ("script")] (by rfl)⟩

theorem perm_all {α : Type} {l1 l2 : List α} (hp : l1.Perm l2) (p : α → Bool) :
    l1.all p = l2.all p := by
  by_cases h : l1.all p = true
  · rw [h]
    symm
    rw [List.all_eq_true] at h ⊢
    exact fun x hx => h x (hp.mem_iff.mpr hx)
  · have h2 : ¬ l2.all p = true := by
      intro hc
      apply h
      rw [List.all_eq_true] at hc ⊢
      exact fun x hx => hc x (hp.mem_iff.mp hx)
    rw [Bool.not_eq_true] at h h2
    rw [h, h2]

theorem charListLe_total : ∀ a b : List Char,
    charListLe a b = true ∨ charListLe b a = true := by
  intro a
  induction a with
  | nil => intro b; exact Or.inl rfl
  | cons c cs ih =>
    intro b
    cases b with
    | nil => exact Or.inr rfl
    | cons d ds =>
      rw [charListLe, charListLe]
      by_cases h1 : c.toNat < d.toNat
      · exact Or.inl (by rw [if_pos h1])
      · by_cases h2 : d.toNat < c.toNat
        · exact Or.inr (by rw [if_pos h2])
        · rw [if_neg h1, if_neg h2, if_neg h2, if_neg h1]
          exact ih ds

theorem charListLe_trans : ∀ a b c : List Char, charListLe a b = true →
    charListLe b c = true → charListLe a c = true := by
  intro a
  induction a with
  | nil => intro b c _ _; rfl
  | cons x xs ih =>
    intro b c hab hbc
    cases b with
    | nil => exact absurd hab (by rw [charListLe]; simp)
    | cons y ys =>
      cases c with
      | nil => exact absurd hbc (by rw [charListLe]; simp)
      | cons z zs =>
        rw [charListLe] at hab hbc ⊢
        by_cases hxy : x.toNat < y.toNat
        · by_cases hyz : y.toNat < z.toNat
          · rw [if_pos (by omega : x.toNat < z.toNat)]
          · rw [if_neg hyz] at hbc
            by_cases hzy : z.toNat < y.toNat
            · rw [if_pos hzy] at hbc
              exact absurd hbc (by simp)
            · rw [if_pos (by omega : x.toNat < z.toNat)]
        · rw [if_neg hxy] at hab
          by_cases hyx : y.toNat < x.toNat
          · rw [if_pos hyx] at hab
            exact absurd hab (by simp)
          · rw [if_neg hyx] at hab
            by_cases hyz : y.toNat < z.toNat
            · rw [if_pos (by omega : x.toNat < z.toNat)]
            · rw [if_neg hyz] at hbc
              by_cases hzy : z.toNat < y.toNat
              · rw [if_pos hzy] at hbc
                exact absurd hbc (by simp)
              · rw [if_neg hzy] at hbc
                rw [if_neg (by omega : ¬ x.toNat < z.toNat),
                  if_neg (by omega : ¬ z.toNat < x.toNat)]
                exact ih ys zs hab hbc

theorem charListLe_antisymm : ∀ a b : List Char, charListLe a b = true →
    charListLe b a = true → a = b := by
  intro a
  induction a with
  | nil =>
    intro b _ hba
    cases b with
    | nil => rfl
    | cons d ds => exact absurd hba (by rw [charListLe]; simp)
  | cons c cs ih =>
    intro b hab hba
    cases b with
    | nil => exact absurd hab (by rw [charListLe]; simp)
    | cons d ds =>
      rw [charListLe] at hab hba
      by_cases h1 : c.toNat < d.toNat
      · rw [if_neg (by omega : ¬ d.toNat < c.toNat), if_pos h1] at hba
        exact absurd hba (by simp)
      · rw [if_neg h1] at hab
        by_cases h2 : d.toNat < c.toNat
        · rw [if_pos h2] at hab
          exact absurd hab (by simp)
        · rw [if_neg h2] at hab
          rw [if_neg h2, if_neg h1] at hba
          have hcd : c = d := by
            have htn : c.toNat = d.toNat := by omega
            exact Char.ext (UInt32.ext htn)
          rw [hcd, ih ds hab hba]

theorem jkeyLe_trans (a b c : JKey) (hab : jkeyLe a b = true)
    (hbc : jkeyLe b c = true) : jkeyLe a c = true := by
  cases a with
  | str sa =>
    cases b with
    | str sb =>
      cases c with
      | str sc =>
        simp only [jkeyLe, pyStrLe] at hab hbc ⊢
        exact charListLe_trans sa.data sb.data sc.data hab hbc
      | int nc => exact absurd hbc (by simp [jkeyLe])
    | int nb => exact absurd hab (by simp [jkeyLe])
  | int na =>
    cases b with
    | str sb =>
      cases c with
      | str sc => rfl
      | int nc => exact absurd hbc (by simp [jkeyLe])
    | int nb =>
      cases c with
      | str sc => rfl
      | int nc =>
        simp only [jkeyLe, decide_eq_true_eq] at hab hbc ⊢
        exact le_trans hab hbc

theorem jkeyLe_total (a b : JKey) : jkeyLe a b = true ∨ jkeyLe b a = true := by
  cases a with
  | str sa =>
    cases b with
    | str sb =>
      simp only [jkeyLe, pyStrLe]
      exact charListLe_total sa.data sb.data
    | int nb => exact Or.inr rfl
  | int na =>
    cases b with
    | str sb => exact Or.inl rfl
    | int nb =>
      simp only [jkeyLe, decide_eq_true_eq]
      exact le_total na nb

theorem jkeyLe_antisymm (a b : JKey) (hab : jkeyLe a b = true)
    (hba : jkeyLe b a = true) : a = b := by
  cases a with
  | str sa =>
    cases b with
    | str sb =>
      simp only [jkeyLe, pyStrLe] at hab hba
      rw [String.ext (charListLe_antisymm sa.data sb.data hab hba)]
    | int nb => exact absurd hab (by simp [jkeyLe])
  | int na =>
    cases b with
    | str sb => exact absurd hba (by simp [jkeyLe])
    | int nb =>
      simp only [jkeyLe, decide_eq_true_eq] at hab hba
      rw [le_antisymm hab hba]

/-- Two permuted pair lists with duplicate-free keys sort to the same
list. -/
theorem insertionSort_key_eq (l1 l2 : List (JKey × List Char))
    (hp : l1.Perm l2) (hnd : (l1.map Prod.fst).Nodup) :
    List.insertionSort (fun a b : JKey × List Char => jkeyLe a.1 b.1 = true) l1 =
      List.insertionSort (fun a b : JKey × List Char => jkeyLe a.1 b.1 = true) l2 := by
  have htotal : IsTotal (JKey × List Char)
      (fun a b : JKey × List Char => jkeyLe a.1 b.1 = true) :=
    ⟨fun a b => jkeyLe_total a.1 b.1⟩
  have htrans : IsTrans (JKey × List Char)
      (fun a b : JKey × List Char => jkeyLe a.1 b.1 = true) :=
    ⟨fun a b c => jkeyLe_trans a.1 b.1 c.1⟩
  have hs1 := @List.sorted_insertionSort (JKey × List Char)
    (fun a b => jkeyLe a.1 b.1 = true) _ htotal htrans l1
  have hs2 := @List.sorted_insertionSort (JKey × List Char)
    (fun a b => jkeyLe a.1 b.1 = true) _ htotal htrans l2
  have hperm1 := List.perm_insertionSort
    (fun a b : JKey × List Char => jkeyLe a.1 b.1 = true) l1
  have hperm2 := List.perm_insertionSort
    (fun a b : JKey × List Char => jkeyLe a.1 b.1 = true) l2
  have hp12 : (List.insertionSort (fun a b : JKey × List Char => jkeyLe a.1 b.1 = true) l1).Perm
      (List.insertionSort (fun a b : JKey × List Char => jkeyLe a.1 b.1 = true) l2) :=
    (hperm1.trans hp).trans hperm2.symm
  have hnd1 : ((List.insertionSort (fun a b : JKey × List Char => jkeyLe a.1 b.1 = true) l1).map
      Prod.fst).Nodup :=
    hnd.perm (hperm1.map Prod.fst).symm
  have hnd2 : ((List.insertionSort (fun a b : JKey × List Char => jkeyLe a.1 b.1 = true) l2).map
      Prod.fst).Nodup :=
    (hnd.perm (hp.map Prod.fst)).perm (hperm2.map Prod.fst).symm
  have hne1 : List.Pairwise (fun a b : JKey × List Char => a.1 ≠ b.1)
      (List.insertionSort (fun a b : JKey × List Char => jkeyLe a.1 b.1 = true) l1) :=
    List.pairwise_map.mp hnd1
  have hne2 : List.Pairwise (fun a b : JKey × List Char => a.1 ≠ b.1)
      (List.insertionSort (fun a b : JKey × List Char => jkeyLe a.1 b.1 = true) l2) :=
    List.pairwise_map.mp hnd2
  exact @List.eq_of_perm_of_sorted (JKey × List Char)
    (fun a b => (jkeyLe a.1 b.1 = true) ∧ a.1 ≠ b.1)
    ⟨fun a b hab hba => absurd (jkeyLe_antisymm a.1 b.1 hab.1 hba.1) hab.2⟩
    _ _ hp12 (hs1.and hne1) (hs2.and hne2)

/-- `dumpsPairs` in closed form: all per-field serializations, in
order, guarded by joint success. -/
theorem dumpsPairs_eq (fields : List (JKey × JVal)) :
    dumpsPairs fields =
      if fields.all (fun p => serOk (dumpsVal p.2)) then
        .ok (fields.map (fun p => (p.1, serVal (dumpsVal p.2))))
      else .error () := by
  induction fields with
  | nil => rfl
  | cons p ps ih =>
    rw [dumpsPairs]
    rw [ih]
    rw [List.all_cons]
    cases hv : dumpsVal p.2 with
    | error e =>
      cases e
      rw [show serOk (Except.error () : Except Unit (List Char)) = false from rfl]
      rw [Bool.false_and]
      by_cases hrest : ps.all (fun p => serOk (dumpsVal p.2)) = true
      · rw [if_pos hrest]
        rfl
      · rw [Bool.not_eq_true] at hrest
        rw [hrest]
        rfl
    | ok sv =>
      rw [show serOk (Except.ok sv : Except Unit (List Char)) = true from rfl]
      rw [Bool.true_and]
      by_cases hrest : ps.all (fun p => serOk (dumpsVal p.2)) = true
      · rw [if_pos hrest, if_pos hrest]
        dsimp only
        rw [List.map_cons]
        rw [hv]
        rfl
      · rw [Bool.not_eq_true] at hrest
        rw [hrest]
        rfl

/-- Serializing a dict is stable under reordering its fields, given
duplicate-free keys. -/
theorem dumpsVal_obj_perm (f1 f2 : List (JKey × JVal)) (hp : f1.Perm f2)
    (hnd : (f1.map Prod.fst).Nodup) :
    dumpsVal (.obj f1) = dumpsVal (.obj f2) := by
  rw [dumpsVal, dumpsVal]
  have hhom : keysHomogeneous f2 = keysHomogeneous f1 := by
    unfold keysHomogeneous
    rw [perm_all hp, perm_all hp]
  rw [hhom]
  by_cases hh : keysHomogeneous f1 = true
  · rw [if_pos hh, if_pos hh]
    rw [dumpsPairs_eq f1, dumpsPairs_eq f2]
    have hall : f2.all (fun p => serOk (dumpsVal p.2)) =
        f1.all (fun p => serOk (dumpsVal p.2)) := (perm_all hp _).symm
    rw [hall]
    by_cases ha : f1.all (fun p => serOk (dumpsVal p.2)) = true
    · rw [if_pos ha, if_pos ha]
      dsimp only
      have hms := insertionSort_key_eq
        (f1.map (fun p => (p.1, serVal (dumpsVal p.2))))
        (f2.map (fun p => (p.1, serVal (dumpsVal p.2))))
        (hp.map _)
        (by
          rw [List.map_map]
          exact hnd)
      rw [hms]
    · rw [Bool.not_eq_true] at ha
      rw [ha]
      rfl
  · rw [if_neg hh, if_neg hh]

/-- **C7 counterexample.**  Python `json.dumps` stringifies `int` dict
keys, so the distinct course-vars dicts `{1: "x"}` and `{"1": "x"}`
serialize identically and produce character-identical cache keys: a
changed input component that does not change the key. -/
theorem cache_key_counterexample :
    JVal.obj [(.int 1, .str ("x"))] ≠ JVal.obj [(.str ("1"), .str ("x"))] ∧
    page_content_cache_key ("R") ("L") ("intro") ("index") .null
        (JVal.obj [(.int 1, .str ("x"))]) =
      page_content_cache_key ("R") ("L") ("intro") ("index") .null
        (JVal.obj [(.str ("1"), .str ("x"))]) := by
  constructor
  · intro h
    simp only [JVal.obj.injEq, List.cons.injEq, Prod.mk.injEq] at h
    exact JKey.noConfusion h.1.1
  · unfold page_content_cache_key
    exact congrArg (key_of_serialized ("R")) (by rfl)

/-- **C7, amended.**  The cache-key builder is stable under reordering
of the identity fields (sorted-keys serialization); keys differ
whenever the rendering-code revision differs; and a differing
lesson-last-modified revision changes the serialized hash input (key
distinctness for hashed components then rests on SHA-1
collision-freedom); but, per the counterexample, not every change of an
input component changes the key. -/
theorem cache_key_properties :
    (∀ (rev : String) (f1 f2 : List (JKey × JVal)),
      f1.Perm f2 → (f1.map Prod.fst).Nodup →
      page_content_cache_key_info rev (.obj f1) =
        page_content_cache_key_info rev (.obj f2)) ∧
    (∀ (rev1 rev2 : String) (info : JVal) (json : List Char),
      rev1 ≠ rev2 → dumpsVal info = .ok json →
      page_content_cache_key_info rev1 info ≠
        page_content_cache_key_info rev2 info) ∧
    dumpsVal (.obj
        [(.str ("lesson"), .str ("intro")),
         (.str ("page"), .str ("index")),
         (.str ("solution"), .null),
         (.str ("vars"), .null),
         (.str ("lesson_last_modified_by"), .str ("aaaa"))]) ≠
      dumpsVal (.obj
        [(.str ("lesson"), .str ("intro")),
         (.str ("page"), .str ("index")),
         (.str ("solution"), .null),
         (.str ("vars"), .null),
         (.str ("lesson_last_modified_by"), .str ("bbbb"))]) := by
  refine ⟨?_, ?_, by decide⟩
  · intro rev f1 f2 hp hnd
    unfold page_content_cache_key_info
    exact congrArg (key_of_serialized rev) (dumpsVal_obj_perm f1 f2 hp hnd)
  · intro rev1 rev2 info json hne hok
    unfold page_content_cache_key_info key_of_serialized
    rw [hok]
    intro hc
    have hs := Except.ok.inj hc
    apply hne
    have hdata := congrArg String.data hs
    rw [String.data_append, String.data_append, String.data_append,
      String.data_append, String.data_append, String.data_append] at hdata
    have h1 := List.append_cancel_right hdata
    have h2 := List.append_cancel_right h1
    have h3 := List.append_cancel_left h2
    exact String.ext h3

/-- Witness for the amended C7: reorder stability applied at a
two-field dict given in both orders, and revision sensitivity at two
concrete revisions. -/
theorem cache_key_properties_witness :
    page_content_cache_key_info ("R")
        (.obj [(.str ("a"), .int 1), (.str ("b"), .int 2)]) =
      page_content_cache_key_info ("R")
        (.obj [(.str ("b"), .int 2), (.str ("a"), .int 1)]) ∧
    page_content_cache_key_info ("R1") (.str ("x")) ≠
      page_content_cache_key_info ("R2") (.str ("x")) :=
  ⟨cache_key_properties.1 ("R")
      [(.str ("a"), .int 1), (.str ("b"), .int 2)]
      [(.str ("b"), .int 2), (.str ("a"), .int 1)]
      (List.Perm.swap _ _ _) (by decide),
    cache_key_properties.2.1 ("R1") ("R2") (.str ("x"))
      (py_json_quote ("x")) (by decide) (by rfl)⟩

end Naucse
